import Mathlib

/-!
# HomeFinder: history, notification and map-marker state of `script.js`

A shallow embedding of the state manager of `src/script.js`.  The globals of the
script (`map`, `markers`, `propertyHistory`, `currentProperty`, `notifications`,
`window.properties`, the three `window.*Layer` overlays) and the parts of the page
the functions read (the two filter selects, the click listeners of the three overlay
toggle buttons) are the fields of `AppState`; every function of the script becomes a
function on `AppState` with the same name.

The calls a handler makes to its collaborators (the geocoding fetch, `map.flyTo`,
`setTimeout`, `alert`) are returned next to the state, in `SearchOutcome`.

The rendered HTML panels are not part of the state: `updateHistoryDisplay` and
`displayNotifications` only rewrite panels from the globals and assign no global, and
in every function embedded here they are called after the last assignment to a global.
-/

namespace HomeFinder

/-! ## Data model -/

/-- One record of `properties.json`.  Coordinates are carried as data only (fixed-point
latitude and longitude); no function of the script computes with them. -/
structure Property where
  id : String
  titulo : String
  precio : String
  ubicacion : String
  tipo : String
  contrato : String
  descripcion : String
  imagen : String
  coords : Int × Int
deriving DecidableEq, Repr

/-- One record of the `notifications` array. -/
structure Notification where
  id : String
  name : String
  propertyId : String
  frequency : String
  propertyName : String
deriving DecidableEq, Repr

/-- What a Leaflet layer object was created as.  `propertyMarker` is a marker made by one of
the three marker loops; its payload is the property its click handler closes over. -/
inductive LayerKind where
  | tile
  | propertyMarker (property : Property)
  | searchMarker (caption : String)
  | trafficGroup (circles : List Property)
  | shoppingGroup
  | securityGroup
deriving DecidableEq, Repr

/-- A Leaflet layer object.  `uid` is the object identity (Leaflet stamps every layer with a
fresh number); two layers are the same object exactly when their `uid` agree. -/
structure Layer where
  uid : Nat
  kind : LayerKind
deriving DecidableEq, Repr

/-- The globals of `script.js` and the page state its functions read. -/
structure AppState where
  /-- Stamp given to the next layer object created. -/
  nextUid : Nat
  /-- Layers currently on `map`, in the order they were added. -/
  mapLayers : List Layer
  /-- Global `markers`. -/
  markers : List Layer
  /-- Global `propertyHistory`. -/
  propertyHistory : List Property
  /-- Global `currentProperty`. -/
  currentProperty : Option Property
  /-- Global `notifications`. -/
  notifications : List Notification
  /-- Global `window.properties`; `none` while undefined. -/
  properties : Option (List Property)
  /-- Global `window.trafficLayer`. -/
  trafficLayer : Option Layer
  /-- Global `window.shoppingLayer`. -/
  shoppingLayer : Option Layer
  /-- Global `window.securityLayer`. -/
  securityLayer : Option Layer
  /-- Click listeners registered on `#trafficToggle`, each with the layer it closes over. -/
  trafficListeners : List Layer
  /-- Click listeners registered on `#shoppingToggle`. -/
  shoppingListeners : List Layer
  /-- Click listeners registered on `#securityToggle`. -/
  securityListeners : List Layer
  /-- Value of the `#typeFilter` select. -/
  typeFilter : String
  /-- Value of the `#contractFilter` select. -/
  contractFilter : String
deriving Repr

/-- How a call ended: normally, or with an uncaught `TypeError`; either way with the state the
globals are left in. -/
inductive Completion where
  | normal (s : AppState)
  | typeError (s : AppState)
deriving Repr

/-- State the globals are left in by a call. -/
def Completion.state : Completion → AppState
  | .normal s => s
  | .typeError s => s

/-! ## Array helpers -/

/-- The method `Array.prototype.findIndex`: index of the first element satisfying `pred`,
`-1` if none. -/
def findIndex {α : Type} (pred : α → Bool) : List α → Int
  | [] => -1
  | x :: xs =>
    if pred x then 0
    else
      let r := findIndex pred xs
      if r = -1 then -1 else r + 1

/-! ## History (lines 172-192) -/

/-- The function `addToHistory(property)`: a property not yet in the history is pushed; one
already there is filtered out by id and pushed again. -/
def addToHistory (s : AppState) (property : Property) : AppState :=
  let existingIndex := findIndex (fun item => item.id == property.id) s.propertyHistory
  if existingIndex = -1 then
    { s with propertyHistory := s.propertyHistory ++ [property] }
  else
    { s with propertyHistory :=
        (s.propertyHistory.filter (fun item => item.id != property.id)) ++ [property] }

/-- The function `removeFromHistory(propertyId)`. -/
def removeFromHistory (s : AppState) (propertyId : String) : AppState :=
  { s with propertyHistory := s.propertyHistory.filter (fun property => property.id != propertyId) }

/-! ## Leaflet map primitives -/

/-- The method `map.hasLayer(layer)`: is this layer object on the map. -/
def hasLayer (layers : List Layer) (layer : Layer) : Bool :=
  layers.any (fun l => l.uid == layer.uid)

/-- The method `map.addLayer(layer)` (also `layer.addTo(map)`): no effect when the layer is
already on the map. -/
def addLayer (layers : List Layer) (layer : Layer) : List Layer :=
  if hasLayer layers layer then layers else layers ++ [layer]

/-- The method `map.removeLayer(layer)`: no effect when the layer is not on the map. -/
def removeLayer (layers : List Layer) (layer : Layer) : List Layer :=
  layers.filter (fun l => l.uid != layer.uid)

/-- The statement `if (window.xLayer) map.removeLayer(window.xLayer)`. -/
def removeIfSet (layers : List Layer) : Option Layer → List Layer
  | none => layers
  | some layer => removeLayer layers layer

/-- Body of an overlay toggle listener closing over `layer`. -/
def toggleLayer (layers : List Layer) (layer : Layer) : List Layer :=
  if hasLayer layers layer then removeLayer layers layer else addLayer layers layer

/-- The function `initializeMap()` on a fresh page: the map holds the tile layer only. -/
def initializeMap : AppState :=
  { nextUid := 1
    mapLayers := [⟨0, .tile⟩]
    markers := []
    propertyHistory := []
    currentProperty := none
    notifications := []
    properties := none
    trafficLayer := none
    shoppingLayer := none
    securityLayer := none
    trafficListeners := []
    shoppingListeners := []
    securityListeners := []
    typeFilter := ""
    contractFilter := "" }

/-! ## Markers and overlays -/

/-- The statement `markers.forEach(marker => map.removeLayer(marker))`. -/
def clearMarkers (s : AppState) : AppState :=
  { s with mapLayers := s.markers.foldl removeLayer s.mapLayers }

/-- Body of the marker loops: `L.marker(property.coords).addTo(map)`, a click handler calling
`addToHistory(property)`, and `markers.push(marker)`. -/
def addMarker (s : AppState) (property : Property) : AppState :=
  let marker : Layer := ⟨s.nextUid, .propertyMarker property⟩
  { s with
    nextUid := s.nextUid + 1
    mapLayers := addLayer s.mapLayers marker
    markers := s.markers ++ [marker] }

/-- The function `addMockOverlays()`: takes the overlays stored in `window` off the map, builds
three new layer groups, stores them in `window`, and registers one more click listener on each
toggle button.  Only the groups are layers of the model, not the circles and icons in them. -/
def addMockOverlays (s : AppState) : AppState :=
  let layers := removeIfSet (removeIfSet (removeIfSet s.mapLayers s.trafficLayer)
    s.shoppingLayer) s.securityLayer
  let circles := match s.properties with
    | some properties => properties
    | none => []
  let trafficLayer : Layer := ⟨s.nextUid, .trafficGroup circles⟩
  let shoppingLayer : Layer := ⟨s.nextUid + 1, .shoppingGroup⟩
  let securityLayer : Layer := ⟨s.nextUid + 2, .securityGroup⟩
  { s with
    nextUid := s.nextUid + 3
    mapLayers := layers
    trafficLayer := some trafficLayer
    shoppingLayer := some shoppingLayer
    securityLayer := some securityLayer
    trafficListeners := s.trafficListeners ++ [trafficLayer]
    shoppingListeners := s.shoppingListeners ++ [shoppingLayer]
    securityListeners := s.securityListeners ++ [securityLayer] }

/-- The function `loadProperties()` from the point where the fetch settles.  `fetched = none`
is a failed fetch or unparsable body, which the `catch` logs. -/
def loadProperties (s : AppState) (fetched : Option (List Property)) : AppState :=
  match fetched with
  | none => s
  | some properties =>
    let s1 := { s with properties := some properties }
    let s2 := { clearMarkers s1 with markers := [] }
    addMockOverlays (properties.foldl addMarker s2)

/-- The function `reinitializeMap()`. -/
def reinitializeMap (s : AppState) : AppState :=
  let s1 := { clearMarkers s with markers := [] }
  match s1.properties with
  | none => s1
  | some properties => addMockOverlays (properties.foldl addMarker s1)

/-- The test of the loop of `filterProperties`; `!typeFilter` holds for the empty string. -/
def matchesFilter (typeFilter contractFilter : String) (property : Property) : Bool :=
  let matchesType := typeFilter == "" || property.tipo == typeFilter
  let matchesContract := contractFilter == "" || property.contrato == contractFilter
  matchesType && matchesContract

/-- The function `filterProperties()`.  The markers in `markers` are taken off the map, but
`markers` itself is not emptied; `window.properties.forEach` raises when the catalog is
undefined. -/
def filterProperties (s : AppState) : Completion :=
  let typeFilter := s.typeFilter
  let contractFilter := s.contractFilter
  let s1 := clearMarkers s
  match s1.properties with
  | none => .typeError s1
  | some properties =>
    .normal (properties.foldl
      (fun st property =>
        if matchesFilter typeFilter contractFilter property then addMarker st property else st)
      s1)

/-! ## Detail view (lines 217-312) -/

/-- The function `showPropertyDetails(propertyId)`: of the globals only `currentProperty`
is assigned. -/
def showPropertyDetails (s : AppState) (propertyId : String) : Completion :=
  match s.properties with
  | none => .typeError s
  | some properties =>
    match properties.find? (fun p => p.id == propertyId) with
    | none => .normal s
    | some property => .normal { s with currentProperty := some property }

/-- The function `hideDetailView()`: restores the history panel and calls
`reinitializeMap()`. -/
def hideDetailView (s : AppState) : AppState :=
  reinitializeMap s

/-! ## Notifications (lines 706-726) -/

/-- Assignment to a field of the first element satisfying `pred`, the object that
`Array.prototype.find` returns. -/
def mutateFirst {α : Type} (pred : α → Bool) (f : α → α) : List α → List α
  | [] => []
  | x :: xs => if pred x then f x :: xs else x :: mutateFirst pred f xs

/-- The function `editNotification(notificationId)`.  The argument `prompt` is the user at the
dialog: given the text shown as default, `none` for Cancel or the text entered. -/
def editNotification (s : AppState) (notificationId : String)
    (prompt : String → Option String) : AppState :=
  match s.notifications.find? (fun n => n.id == notificationId) with
  | none => s
  | some notification =>
    match prompt notification.frequency with
    | none => s
    | some newFrequency =>
      if newFrequency != "" then
        let edited := mutateFirst (fun n => n.id == notificationId)
          (fun n => { n with frequency := newFrequency }) s.notifications
        { s with notifications := edited }
      else s

/-- The function `deleteNotification(notificationId)`; `confirm` is the answer to the dialog. -/
def deleteNotification (s : AppState) (notificationId : String) (confirm : Bool) : AppState :=
  if confirm then
    { s with notifications := s.notifications.filter (fun n => n.id != notificationId) }
  else s

/-! ## Event handlers and runs -/

/-- Click on an overlay toggle button: every listener registered on it runs, in the order of
registration. -/
def clickToggle (layers : List Layer) (listeners : List Layer) : List Layer :=
  listeners.foldl toggleLayer layers

/-- The user events of the map page that reach the embedded functions. -/
inductive Event where
  /-- The fetch of `loadProperties` settles. -/
  | propertiesFetched (fetched : Option (List Property))
  /-- A `change` event of `#typeFilter` with the new value of the select. -/
  | typeFilterChanged (value : String)
  /-- A `change` event of `#contractFilter` with the new value of the select. -/
  | contractFilterChanged (value : String)
  /-- A click on a layer of the map. -/
  | markerClicked (marker : Layer)
  /-- The button "Ver Detalles" of a history card. -/
  | viewDetailsClicked (propertyId : String)
  /-- The button "Back to History" of the detail view. -/
  | backToHistoryClicked
  /-- The button "X" of a history card. -/
  | deleteHistoryClicked (propertyId : String)
  | trafficToggleClicked
  | shoppingToggleClicked
  | securityToggleClicked
deriving Repr

/-- The handler the script runs for an event.  A click reaches `addToHistory` only for a
property marker that is on the map. -/
def step (s : AppState) : Event → AppState
  | .propertiesFetched fetched => loadProperties s fetched
  | .typeFilterChanged value => (filterProperties { s with typeFilter := value }).state
  | .contractFilterChanged value => (filterProperties { s with contractFilter := value }).state
  | .markerClicked marker =>
    if marker ∈ s.mapLayers then
      match marker.kind with
      | .propertyMarker property => addToHistory s property
      | _ => s
    else s
  | .viewDetailsClicked propertyId => (showPropertyDetails s propertyId).state
  | .backToHistoryClicked => hideDetailView s
  | .deleteHistoryClicked propertyId => removeFromHistory s propertyId
  | .trafficToggleClicked => { s with mapLayers := clickToggle s.mapLayers s.trafficListeners }
  | .shoppingToggleClicked => { s with mapLayers := clickToggle s.mapLayers s.shoppingListeners }
  | .securityToggleClicked => { s with mapLayers := clickToggle s.mapLayers s.securityListeners }

/-- State of the map page after `initializeMap()` and a sequence of events. -/
def run (events : List Event) : AppState :=
  events.foldl step initializeMap

/-- A call of one of the two functions that assign `propertyHistory`. -/
inductive HistoryCall where
  | add (property : Property)
  | remove (propertyId : String)
deriving Repr

/-- Effect of one history call. -/
def applyHistoryCall (s : AppState) : HistoryCall → AppState
  | .add property => addToHistory s property
  | .remove propertyId => removeFromHistory s propertyId

/-! ## Observations used in the statements -/

/-- The property a layer was created for, when it is a property marker. -/
def Layer.property? (l : Layer) : Option Property :=
  match l.kind with
  | .propertyMarker property => some property
  | _ => none

/-- Is the layer a property marker. -/
def Layer.isPropertyMarker (l : Layer) : Bool :=
  l.property?.isSome

/-- The properties that have a marker on the map, one entry per marker, in the order the
markers were added. -/
def markedProperties (s : AppState) : List Property :=
  s.mapLayers.filterMap Layer.property?

/-- What the specification asks of the history after a sequence of visits: a visit is kept
exactly when no later visit has the same id. -/
def lastVisits : List Property → List Property
  | [] => []
  | p :: ps => if ps.any (fun q => q.id == p.id) then lastVisits ps else p :: lastVisits ps

/-- Position of the last visit of an id in a sequence of visits (`none` if never visited). -/
def lastVisitIndex (i : String) : List Property → Option Nat
  | [] => none
  | p :: ps =>
    match lastVisitIndex i ps with
    | some k => some (k + 1)
    | none => if p.id == i then some 0 else none

/-- The marker objects a marker loop creates for a list of properties when the next stamp
is `n`: one per property, in order, with consecutive stamps. -/
def newMarkers (n : Nat) : List Property → List Layer
  | [] => []
  | p :: ps => ⟨n, .propertyMarker p⟩ :: newMarkers (n + 1) ps

/-- The overlay groups the script holds on to: those stored in `window` and those the toggle
listeners close over. -/
def overlayLayers (s : AppState) : List Layer :=
  s.trafficLayer.toList ++ s.shoppingLayer.toList ++ s.securityLayer.toList ++
    s.trafficListeners ++ s.shoppingListeners ++ s.securityListeners

/-- Invariant of the map page: stamps are fresh, a layer is on the map once, every property
marker on the map is recorded in `markers`, and the overlay groups are not property markers. -/
structure WellFormed (s : AppState) : Prop where
  map_lt : ∀ l ∈ s.mapLayers, l.uid < s.nextUid
  map_nodup : (s.mapLayers.map Layer.uid).Nodup
  tracked : ∀ l ∈ s.mapLayers, l.isPropertyMarker = true → hasLayer s.markers l = true
  overlay_lt : ∀ l ∈ overlayLayers s, l.uid < s.nextUid
  overlay_kind : ∀ l ∈ overlayLayers s, l.isPropertyMarker = false

/-- The catalog a marker loop iterates over: `window.properties`, nothing while undefined. -/
def catalog (s : AppState) : List Property :=
  match s.properties with
  | some properties => properties
  | none => []

/-- What the specification asks of a render that takes the map page from `before` to `after`
for the list `rendered`: the property markers on the map stand for exactly the entries of
`rendered`, one marker per entry and in its order, no layer is on the map twice, and no
property marker that was on the map before is on it after. -/
def RenderedExactly (before after : AppState) (rendered : List Property) : Prop :=
  markedProperties after = rendered ∧
  (after.mapLayers.map Layer.uid).Nodup ∧
  ∀ m ∈ before.mapLayers, m.isPropertyMarker = true → hasLayer after.mapLayers m = false

/-! ## Alert form (lines 472-504) -/

/-- Decimal digits of a number, most significant first: what `'alert_' + Date.now()` appends
for the integer `Date.now()` returns. -/
def decimal (n : Nat) : List Char :=
  if n < 10 then [Nat.digitChar n] else decimal (n / 10) ++ [Nat.digitChar (n % 10)]
decreasing_by omega

/-- The expression `'alert_' + Date.now()` for the clock reading `now`. -/
def alertId (now : Nat) : String :=
  "alert_" ++ String.mk (decimal now)

/-- The `submit` handler of `#alertForm`, with the clock reading and the form values of the
submission.  `window.properties.find` raises while the catalog is undefined.  The constant
`alert` declared in the handler hides the dialog function of the same name, so the call
`alert('Alert created successfully!')` raises after the push and the rest of the handler does
not run. -/
def submitAlertForm (s : AppState) (now : Nat) (alertName frequency propertyId : String) :
    Completion :=
  match s.properties with
  | none => .typeError s
  | some properties =>
    let property := properties.find? (fun p => p.id == propertyId)
    let propertyName := match property with
      | some p => p.titulo
      | none => "Unknown Property"
    let alert : Notification :=
      { id := alertId now
        name := alertName
        propertyId := propertyId
        frequency := frequency
        propertyName := propertyName }
    .typeError { s with notifications := s.notifications ++ [alert] }

/-- One submission of the alert form: the reading of the clock and the values of the form. -/
structure AlertSubmission where
  now : Nat
  alertName : String
  frequency : String
  propertyId : String
deriving Repr

/-- A session of alert-form submissions, in order. -/
def submitAll (s : AppState) (submissions : List AlertSubmission) : AppState :=
  submissions.foldl
    (fun st sub => (submitAlertForm st sub.now sub.alertName sub.frequency sub.propertyId).state)
    s

/-! ## Location search (lines 541-605) -/

/-- The code points ECMAScript counts as white space or line terminator, the characters that
`String.prototype.trim` strips. -/
def isWhiteSpace (c : Char) : Bool :=
  let n := c.toNat
  n == 0x09 || n == 0x0A || n == 0x0B || n == 0x0C || n == 0x0D || n == 0x20 || n == 0xA0 ||
    n == 0x1680 || (0x2000 ≤ n && n ≤ 0x200A) || n == 0x2028 || n == 0x2029 || n == 0x202F ||
    n == 0x205F || n == 0x3000 || n == 0xFEFF

/-- The method `String.prototype.trim`. -/
def trim (str : String) : String :=
  String.mk ((str.data.dropWhile isWhiteSpace).reverse.dropWhile isWhiteSpace).reverse

/-- The method `String.prototype.includes`: does `sub` occur in `str` as a substring. -/
def includes (str sub : String) : Bool :=
  str.data.tails.any (fun t => sub.data.isPrefixOf t)

/-- Lower-casing of the ASCII letters; on strings of ASCII characters this is what
`String.prototype.toLowerCase` returns. -/
def asciiLower (str : String) : String :=
  String.mk (str.data.map Char.toLower)

/-- The value of `matchingProperty` in `performLocationSearch`:
`window.properties && window.properties.find(...)`.  The case mapping of
`String.prototype.toLowerCase` is the argument `toLowerCase`. -/
def matchingProperty (toLowerCase : String → String) (s : AppState) (searchInput : String) :
    Option Property :=
  match s.properties with
  | none => none
  | some properties =>
    properties.find? (fun property =>
      includes (toLowerCase property.ubicacion) (toLowerCase searchInput) ||
      includes (toLowerCase property.titulo) (toLowerCase searchInput))

/-- One entry of the answer of the geocoding service, with the coordinates as `parseFloat`
reads them (fixed-point). -/
structure GeoResult where
  lat : Int
  lon : Int
  display_name : String
deriving DecidableEq, Repr

/-- How the fetch of the geocoding service settles: rejected or unparsable, or parsed data. -/
inductive GeocodeResponse where
  | failed
  | data (results : List GeoResult)
deriving Repr

/-- What a run of search code leaves behind: the globals, and the calls it made to the
collaborators, each list in call order. -/
structure SearchOutcome where
  state : AppState
  /-- Calls of `map.flyTo(coords, zoom)`. -/
  flights : List ((Int × Int) × Nat)
  /-- Calls of `fetch` to the geocoding service, each with the query sent. -/
  lookups : List String
  /-- Calls of `setTimeout`: the markers to be removed after 5000 ms. -/
  timers : List Layer
  /-- Messages shown with `alert`. -/
  alerts : List String
deriving Repr

/-- The statements shared by the two successful branches of `performLocationSearch`: fly to
the place, add a temporary marker with a popup, and schedule its removal. -/
def focusOn (s : AppState) (coords : Int × Int) (caption : String) : SearchOutcome :=
  let searchMarker : Layer := ⟨s.nextUid, .searchMarker caption⟩
  { state := { s with
      nextUid := s.nextUid + 1
      mapLayers := addLayer s.mapLayers searchMarker }
    flights := [(coords, 15)]
    lookups := []
    timers := [searchMarker]
    alerts := [] }

/-- The function `performLocationSearch()` up to its `await`, for the text in `#searchInput`.
A non-empty `lookups` means the function is suspended on that fetch. -/
def performLocationSearch (toLowerCase : String → String) (s : AppState)
    (searchInput : String) : SearchOutcome :=
  if trim searchInput == "" then
    { state := s, flights := [], lookups := [], timers := [], alerts := [] }
  else
    match matchingProperty toLowerCase s searchInput with
    | some matchingProperty => focusOn s matchingProperty.coords matchingProperty.ubicacion
    | none => { state := s, flights := [], lookups := [searchInput], timers := [], alerts := [] }

/-- The function `performLocationSearch()` from the point where its fetch settles. -/
def geocodeSettled (s : AppState) (response : GeocodeResponse) : SearchOutcome :=
  match response with
  | .failed =>
    { state := s, flights := [], lookups := [], timers := [],
      alerts := ["Error al buscar la ubicación. Puede que la ubicación no exista o haya problemas de conexión."] }
  | .data [] =>
    { state := s, flights := [], lookups := [], timers := [],
      alerts := ["No se encontró la ubicación buscada"] }
  | .data (first :: _) => focusOn s (first.lat, first.lon) first.display_name

/-- The callback of the timer of a temporary search marker. -/
def searchMarkerExpired (s : AppState) (searchMarker : Layer) : AppState :=
  { s with mapLayers := removeLayer s.mapLayers searchMarker }

/-- What the specification asks of a text match: the query occurs, case-insensitively, as a
substring of the location label or of the title. -/
def MatchesQuery (toLowerCase : String → String) (query : String) (p : Property) : Prop :=
  (toLowerCase query).data <:+: (toLowerCase p.ubicacion).data ∨
  (toLowerCase query).data <:+: (toLowerCase p.titulo).data

/-! ## Concrete inputs -/

/-- A house for rent. -/
def sampleCasa : Property :=
  { id := "1", titulo := "Casa Linda", precio := "S/ 2500", ubicacion := "Miraflores",
    tipo := "casa", contrato := "alquiler", descripcion := "Casa de dos pisos",
    imagen := "casa.jpg", coords := (-12100000, -77020000) }

/-- A flat for sale. -/
def sampleDepa : Property :=
  { id := "2", titulo := "Depa Centro", precio := "S/ 310000", ubicacion := "Lima",
    tipo := "departamento", contrato := "venta", descripcion := "Departamento con vista",
    imagen := "depa.jpg", coords := (-12046400, -77042800) }

/-- A daily alert on the house. -/
def sampleAlert : Notification :=
  { id := "alert_1", name := "Precio", propertyId := "1", frequency := "daily",
    propertyName := "Casa Linda" }

/-- A page whose notifications list holds the one alert. -/
def sampleAlertState : AppState :=
  { initializeMap with notifications := [sampleAlert] }

/-- A session on the map page: the catalog of two properties loads, the user selects type
`casa`, clicks the marker of the house (the marker with stamp 6, created by that filtering),
opens its details from the history card and goes back to the history. -/
def filterThenDetailSession : List Event :=
  [ .propertiesFetched (some [sampleCasa, sampleDepa]),
    .typeFilterChanged "casa",
    .markerClicked ⟨6, .propertyMarker sampleCasa⟩,
    .viewDetailsClicked "1",
    .backToHistoryClicked ]

/-- A state of the map page with the catalog of two properties loaded. -/
def sampleLoaded : AppState :=
  loadProperties initializeMap (some [sampleCasa, sampleDepa])

/-- Two submissions of the alert form in the same millisecond. -/
def sameInstantSubmissions : List AlertSubmission :=
  [ { now := 1700000000000, alertName := "Precio", frequency := "daily", propertyId := "1" },
    { now := 1700000000000, alertName := "Visitas", frequency := "weekly", propertyId := "2" } ]

/-- Two submissions of the alert form one millisecond apart. -/
def laterSubmissions : List AlertSubmission :=
  [ { now := 1700000000000, alertName := "Precio", frequency := "daily", propertyId := "1" },
    { now := 1700000000001, alertName := "Visitas", frequency := "weekly", propertyId := "2" } ]

/-- The three overlays of the map page. -/
inductive OverlayName where
  | traffic
  | shopping
  | security
deriving DecidableEq, Repr

/-- The overlay a layer group was built as, when it is one. -/
def Layer.overlayName? (l : Layer) : Option OverlayName :=
  match l.kind with
  | .trafficGroup _ => some .traffic
  | .shoppingGroup => some .shopping
  | .securityGroup => some .security
  | _ => none

/-- Number of overlay groups of a name that are on the map. -/
def overlaysOnMap (s : AppState) (name : OverlayName) : Nat :=
  (s.mapLayers.filter (fun l => l.overlayName? == some name)).length

/-- A click on the toggle button of an overlay. -/
def clickOverlayToggle (s : AppState) : OverlayName → AppState
  | .traffic => step s .trafficToggleClicked
  | .shopping => step s .shoppingToggleClicked
  | .security => step s .securityToggleClicked

/-- A session on the map page: the catalog of two properties loads, the user clicks the
marker of the house (stamp 1), opens its details from the history card and goes back to the
history.  No overlay toggle has been clicked. -/
def detailCycleSession : List Event :=
  [ .propertiesFetched (some [sampleCasa, sampleDepa]),
    .markerClicked ⟨1, .propertyMarker sampleCasa⟩,
    .viewDetailsClicked "1",
    .backToHistoryClicked ]

/-- A session on the map page: the catalog of two properties loads and the user selects
type `casa`. -/
def filterSession : List Event :=
  [ .propertiesFetched (some [sampleCasa, sampleDepa]),
    .typeFilterChanged "casa" ]

/-! ## History: lemmas -/

theorem findIndex_ge {α : Type} (pred : α → Bool) (xs : List α) : -1 ≤ findIndex pred xs := by
  induction xs with
  | nil => simp [findIndex]
  | cons x xs ih =>
    simp only [findIndex]
    split
    · omega
    · split <;> omega

theorem findIndex_eq_neg_one_iff {α : Type} (pred : α → Bool) (xs : List α) :
    findIndex pred xs = -1 ↔ ∀ x ∈ xs, pred x = false := by
  induction xs with
  | nil => simp [findIndex]
  | cons x xs ih =>
    have hge := findIndex_ge pred xs
    simp only [findIndex, List.mem_cons, forall_eq_or_imp]
    by_cases hx : pred x = true
    · simp [hx]
    · simp only [hx, Bool.false_eq_true, if_false]
      rw [← ih]
      constructor
      · intro h
        refine ⟨by simp [hx], ?_⟩
        by_contra hne
        rw [if_neg hne] at h
        omega
      · rintro ⟨_, h⟩
        simp [h]

/-- The list `addToHistory` leaves in `propertyHistory`, in both branches. -/
theorem addToHistory_history (s : AppState) (p : Property) :
    (addToHistory s p).propertyHistory
      = s.propertyHistory.filter (fun q => decide (q.id ≠ p.id)) ++ [p] := by
  have hfun : (fun item : Property => item.id != p.id) = (fun q => decide (q.id ≠ p.id)) := by
    funext q
    by_cases h : q.id = p.id <;> simp [h]
  unfold addToHistory
  by_cases h : findIndex (fun item => item.id == p.id) s.propertyHistory = -1
  · simp only [h, if_true]
    rw [findIndex_eq_neg_one_iff] at h
    congr 1
    symm
    rw [List.filter_eq_self]
    intro q hq
    have := h q hq
    simpa using this
  · simp only [h, if_false, hfun]

theorem removeFromHistory_history (s : AppState) (i : String) :
    (removeFromHistory s i).propertyHistory
      = s.propertyHistory.filter (fun q => decide (q.id ≠ i)) := by
  have hfun : (fun q : Property => q.id != i) = (fun q => decide (q.id ≠ i)) := by
    funext q
    by_cases h : q.id = i <;> simp [h]
  simp [removeFromHistory, hfun]

theorem nodup_ids_filter (h : List Property) (f : Property → Bool)
    (hn : (h.map (fun q => q.id)).Nodup) : ((h.filter f).map (fun q => q.id)).Nodup :=
  hn.sublist ((List.filter_sublist h).map _)

theorem nodup_ids_visit (h : List Property) (p : Property)
    (hn : (h.map (fun q => q.id)).Nodup) :
    ((h.filter (fun q => decide (q.id ≠ p.id)) ++ [p]).map (fun q => q.id)).Nodup := by
  rw [List.map_append, List.nodup_append]
  refine ⟨nodup_ids_filter h _ hn, by simp, ?_⟩
  intro a ha hb
  simp only [List.map_cons, List.map_nil, List.mem_singleton] at hb
  simp only [List.mem_map, List.mem_filter, decide_eq_true_eq] at ha
  obtain ⟨q, ⟨_, hq⟩, rfl⟩ := ha
  exact hq hb

theorem foldl_addToHistory_history (vs : List Property) (s : AppState) :
    (vs.foldl addToHistory s).propertyHistory
      = s.propertyHistory.filter (fun q => !(vs.any (fun v => v.id == q.id))) ++ lastVisits vs := by
  induction vs generalizing s with
  | nil => simp [lastVisits]
  | cons v vs ih =>
    rw [List.foldl_cons, ih, addToHistory_history, List.filter_append, List.filter_filter,
      List.append_assoc]
    congr 1
    · apply List.filter_congr
      intro q _
      by_cases h1 : q.id = v.id
      · simp [h1]
      · have h2 : ¬ v.id = q.id := fun h => h1 h.symm
        simp [h1, h2]
    · by_cases h : vs.any (fun q => q.id == v.id) = true
      · simp [lastVisits, h, List.filter_cons]
      · simp only [Bool.not_eq_true] at h
        simp [lastVisits, h, List.filter_cons]

theorem lastVisits_sublist (vs : List Property) : (lastVisits vs).Sublist vs := by
  induction vs with
  | nil => simp [lastVisits]
  | cons v vs ih =>
    simp only [lastVisits]
    split
    · exact ih.trans (List.sublist_cons_self v vs)
    · exact ih.cons₂ v

theorem mem_ids_lastVisits (vs : List Property) (i : String) :
    i ∈ (lastVisits vs).map (fun q => q.id) ↔ i ∈ vs.map (fun q => q.id) := by
  induction vs with
  | nil => simp [lastVisits]
  | cons v vs ih =>
    simp only [lastVisits]
    by_cases h : vs.any (fun q => q.id == v.id) = true
    · rw [if_pos h, ih]
      simp only [List.any_eq_true, beq_iff_eq] at h
      obtain ⟨q, hq, hqv⟩ := h
      simp only [List.map_cons, List.mem_cons, List.mem_map]
      constructor
      · exact fun h => Or.inr h
      · rintro (h | h)
        · exact ⟨q, hq, by rw [h, hqv]⟩
        · exact h
    · rw [if_neg h]
      simp only [List.map_cons, List.mem_cons, ih]

theorem nodup_ids_lastVisits (vs : List Property) :
    ((lastVisits vs).map (fun q => q.id)).Nodup := by
  induction vs with
  | nil => simp [lastVisits]
  | cons v vs ih =>
    simp only [lastVisits]
    by_cases h : vs.any (fun q => q.id == v.id) = true
    · rw [if_pos h]; exact ih
    · rw [if_neg h, List.map_cons, List.nodup_cons]
      refine ⟨?_, ih⟩
      rw [mem_ids_lastVisits]
      simp only [List.any_eq_true, beq_iff_eq, not_exists, not_and] at h
      simp only [List.mem_map, not_exists, not_and]
      intro q hq
      exact h q hq

theorem lastVisitIndex_eq_none_iff (i : String) (vs : List Property) :
    lastVisitIndex i vs = none ↔ ∀ q ∈ vs, q.id ≠ i := by
  induction vs with
  | nil => simp [lastVisitIndex]
  | cons v vs ih =>
    simp only [lastVisitIndex, List.mem_cons, forall_eq_or_imp]
    cases hk : lastVisitIndex i vs with
    | some k =>
      have : ¬ ∀ q ∈ vs, q.id ≠ i := fun h => by rw [ih.mpr h] at hk; cases hk
      simp [this]
    | none =>
      have := ih.mp hk
      by_cases hv : v.id = i
      · simp [hv]
      · simp only [hv, beq_iff_eq, if_false, ne_eq, not_false_eq_true, true_and, true_iff]
        exact this

theorem lastVisitIndex_of_mem (vs : List Property) (a : Property) (ha : a ∈ vs) :
    ∃ k, lastVisitIndex a.id vs = some k := by
  cases h : lastVisitIndex a.id vs with
  | some k => exact ⟨k, rfl⟩
  | none => exact absurd rfl ((lastVisitIndex_eq_none_iff a.id vs).mp h a ha)

theorem lastVisits_at_lastVisitIndex (vs : List Property) :
    ∀ a ∈ lastVisits vs, ∃ k, lastVisitIndex a.id vs = some k ∧ vs.get? k = some a := by
  induction vs with
  | nil => simp [lastVisits]
  | cons v vs ih =>
    intro a ha
    simp only [lastVisits] at ha
    have hrec : a ∈ lastVisits vs →
        ∃ k, lastVisitIndex a.id (v :: vs) = some k ∧ (v :: vs).get? k = some a := by
      intro h
      obtain ⟨k, hk, hget⟩ := ih a h
      exact ⟨k + 1, by simp [lastVisitIndex, hk], by simpa using hget⟩
    by_cases h : vs.any (fun q => q.id == v.id) = true
    · rw [if_pos h] at ha
      exact hrec ha
    · rw [if_neg h, List.mem_cons] at ha
      rcases ha with rfl | ha
      · simp only [List.any_eq_true, beq_iff_eq, not_exists, not_and] at h
        have hnone := (lastVisitIndex_eq_none_iff a.id vs).mpr h
        exact ⟨0, by simp [lastVisitIndex, hnone], by simp⟩
      · exact hrec ha

theorem lastVisits_ordered (vs : List Property) :
    (lastVisits vs).Pairwise (fun a b => ∃ ka kb, lastVisitIndex a.id vs = some ka ∧
      lastVisitIndex b.id vs = some kb ∧ ka < kb) := by
  induction vs with
  | nil => simp [lastVisits]
  | cons v vs ih =>
    have hlift : (lastVisits vs).Pairwise (fun a b => ∃ ka kb,
        lastVisitIndex a.id (v :: vs) = some ka ∧
        lastVisitIndex b.id (v :: vs) = some kb ∧ ka < kb) := by
      refine ih.imp ?_
      rintro a b ⟨ka, kb, h1, h2, h3⟩
      exact ⟨ka + 1, kb + 1, by simp [lastVisitIndex, h1], by simp [lastVisitIndex, h2],
        by omega⟩
    simp only [lastVisits]
    by_cases h : vs.any (fun q => q.id == v.id) = true
    · rw [if_pos h]; exact hlift
    · rw [if_neg h, List.pairwise_cons]
      refine ⟨?_, hlift⟩
      intro b hb
      simp only [List.any_eq_true, beq_iff_eq, not_exists, not_and] at h
      have hnone := (lastVisitIndex_eq_none_iff v.id vs).mpr h
      obtain ⟨k, hk⟩ := lastVisitIndex_of_mem vs b ((lastVisits_sublist vs).subset hb)
      exact ⟨0, k + 1, by simp [lastVisitIndex, hnone], by simp [lastVisitIndex, hk], by omega⟩

theorem addToHistory_eq (s : AppState) (p : Property) :
    addToHistory s p = { s with propertyHistory := (addToHistory s p).propertyHistory } := by
  unfold addToHistory
  by_cases h : findIndex (fun item => item.id == p.id) s.propertyHistory = -1 <;> simp [h]

theorem length_filter_id_le_one (l : List Property) (i : String)
    (hn : (l.map (fun q => q.id)).Nodup) :
    (l.filter (fun q => decide (q.id = i))).length ≤ 1 := by
  induction l with
  | nil => simp
  | cons q qs ih =>
    rw [List.map_cons, List.nodup_cons] at hn
    by_cases hq : q.id = i
    · have hnil : qs.filter (fun q => decide (q.id = i)) = [] := by
        rw [List.filter_eq_nil_iff]
        intro a ha
        simp only [decide_eq_true_eq]
        intro hai
        apply hn.1
        rw [hq, ← hai]
        exact List.mem_map_of_mem _ ha
      simp [List.filter_cons, hq, hnil]
    · simpa [List.filter_cons, hq] using ih hn.2

theorem applyHistoryCall_nodup (s : AppState) (c : HistoryCall)
    (hn : (s.propertyHistory.map (fun q => q.id)).Nodup) :
    ((applyHistoryCall s c).propertyHistory.map (fun q => q.id)).Nodup := by
  cases c with
  | add p =>
    simp only [applyHistoryCall]
    rw [addToHistory_history]
    exact nodup_ids_visit _ p hn
  | remove i =>
    simp only [applyHistoryCall]
    rw [removeFromHistory_history]
    exact nodup_ids_filter _ _ hn

theorem foldl_applyHistoryCall_nodup (calls : List HistoryCall) (s : AppState)
    (hn : (s.propertyHistory.map (fun q => q.id)).Nodup) :
    ((calls.foldl applyHistoryCall s).propertyHistory.map (fun q => q.id)).Nodup := by
  induction calls generalizing s with
  | nil => exact hn
  | cons c cs ih => exact ih _ (applyHistoryCall_nodup s c hn)

/-! ## History: the claims -/

/-- C1: for every state and every property `p`, `addToHistory(p)` leaves `propertyHistory`
equal to the old history with every entry whose id is `p.id` removed, the remaining entries
in their order, followed by `p` as last element; no other global is changed. -/
theorem addToHistory_spec (s : AppState) (p : Property) :
    addToHistory s p
      = { s with propertyHistory :=
            s.propertyHistory.filter (fun q => decide (q.id ≠ p.id)) ++ [p] } := by
  rw [addToHistory_eq, addToHistory_history]

/-- C2: in every state reached from an empty history by any sequence of `addToHistory` and
`removeFromHistory` calls, no two entries of `propertyHistory` have the same id. -/
theorem history_at_most_one_entry_per_id (s : AppState) (calls : List HistoryCall) :
    ((calls.foldl applyHistoryCall { s with propertyHistory := [] }).propertyHistory.map
      (fun q => q.id)).Nodup ∧
    ∀ i : String, ((calls.foldl applyHistoryCall { s with propertyHistory := [] }).propertyHistory.filter
      (fun q => decide (q.id = i))).length ≤ 1 := by
  have hn := foldl_applyHistoryCall_nodup calls { s with propertyHistory := [] } (by simp)
  exact ⟨hn, fun i => length_filter_id_le_one _ i hn⟩

/-- C3: after any sequence of `addToHistory` calls on an empty history, `propertyHistory` is the
sequence of visits with every visit dropped that is followed by a later visit of the same id:
every visited id is listed exactly once, every entry is the property passed at the last visit of
its id, and the entries are ordered by the position of that last visit; for `P.id ≠ Q.id` the
visits `P, Q, P` give `[Q, P]`. -/
theorem history_most_recent_last (s : AppState) (visits : List Property) :
    (visits.foldl addToHistory { s with propertyHistory := [] }).propertyHistory
        = lastVisits visits ∧
    (∀ p ∈ visits, ((lastVisits visits).map (fun q => q.id)).count p.id = 1) ∧
    (∀ a ∈ lastVisits visits, a ∈ visits) ∧
    (∀ a ∈ lastVisits visits,
      ∃ k, lastVisitIndex a.id visits = some k ∧ visits.get? k = some a) ∧
    (lastVisits visits).Pairwise (fun a b => ∃ ka kb, lastVisitIndex a.id visits = some ka ∧
      lastVisitIndex b.id visits = some kb ∧ ka < kb) ∧
    (∀ P Q : Property, P.id ≠ Q.id →
      ([P, Q, P].foldl addToHistory { s with propertyHistory := [] }).propertyHistory
        = [Q, P]) := by
  refine ⟨?_, ?_, ?_, lastVisits_at_lastVisitIndex visits, lastVisits_ordered visits, ?_⟩
  · rw [foldl_addToHistory_history]
    simp
  · intro p hp
    apply List.count_eq_one_of_mem (nodup_ids_lastVisits visits)
    rw [mem_ids_lastVisits]
    exact List.mem_map_of_mem _ hp
  · exact fun a ha => (lastVisits_sublist visits).subset ha
  · intro P Q hPQ
    rw [foldl_addToHistory_history]
    have hQP : ¬ Q.id = P.id := fun h => hPQ h.symm
    simp [lastVisits, hPQ, hQP]

/-- C4: for every state and id `i`, `removeFromHistory(i)` leaves `propertyHistory` equal to the
old history without the entries of id `i`, the other entries in their order, and changes no
other global; when no entry has id `i` the state is unchanged. -/
theorem removeFromHistory_spec (s : AppState) (i : String) :
    removeFromHistory s i
      = { s with propertyHistory := s.propertyHistory.filter (fun q => decide (q.id ≠ i)) } ∧
    (removeFromHistory s i).propertyHistory.Sublist s.propertyHistory ∧
    (∀ q, q ∈ (removeFromHistory s i).propertyHistory ↔ q ∈ s.propertyHistory ∧ q.id ≠ i) ∧
    ((∀ q ∈ s.propertyHistory, q.id ≠ i) → removeFromHistory s i = s) := by
  have hfun : (fun q : Property => q.id != i) = (fun q => decide (q.id ≠ i)) := by
    funext q
    by_cases h : q.id = i <;> simp [h]
  have heq : removeFromHistory s i
      = { s with propertyHistory := s.propertyHistory.filter (fun q => decide (q.id ≠ i)) } := by
    simp [removeFromHistory, hfun]
  refine ⟨heq, ?_, ?_, ?_⟩
  · rw [heq]
    exact List.filter_sublist _
  · intro q
    rw [heq]
    simp
  · intro h
    rw [heq]
    have : s.propertyHistory.filter (fun q => decide (q.id ≠ i)) = s.propertyHistory := by
      rw [List.filter_eq_self]
      intro q hq
      simpa using h q hq
    rw [this]

/-! ## Map primitives: lemmas -/

theorem hasLayer_iff (layers : List Layer) (l : Layer) :
    hasLayer layers l = true ↔ l.uid ∈ layers.map Layer.uid := by
  simp only [hasLayer, List.any_eq_true, beq_iff_eq, List.mem_map]

theorem removeLayer_eq_filter (layers : List Layer) (l : Layer) :
    removeLayer layers l = layers.filter (fun x => decide (x.uid ≠ l.uid)) := by
  unfold removeLayer
  apply List.filter_congr
  intro x _
  by_cases h : x.uid = l.uid <;> simp [h]

theorem foldl_removeLayer (ms layers : List Layer) :
    ms.foldl removeLayer layers = layers.filter (fun l => !hasLayer ms l) := by
  induction ms generalizing layers with
  | nil => simp [hasLayer]
  | cons m ms ih =>
    rw [List.foldl_cons, ih, removeLayer_eq_filter, List.filter_filter]
    apply List.filter_congr
    intro x _
    by_cases h : x.uid = m.uid
    · simp [hasLayer, h]
    · have h2 : ¬ m.uid = x.uid := fun e => h e.symm
      simp [hasLayer, h, h2]

theorem addLayer_fresh (layers : List Layer) (l : Layer)
    (h : ∀ x ∈ layers, x.uid ≠ l.uid) : addLayer layers l = layers ++ [l] := by
  unfold addLayer
  have : hasLayer layers l = false := by
    rw [← Bool.not_eq_true, hasLayer_iff]
    simp only [List.mem_map, not_exists, not_and]
    exact fun x hx => h x hx
  simp [this]

theorem newMarkers_length (n : Nat) (ps : List Property) : (newMarkers n ps).length = ps.length := by
  induction ps generalizing n with
  | nil => rfl
  | cons p ps ih => simp [newMarkers, ih]

theorem newMarkers_uid (n : Nat) (ps : List Property) :
    ∀ l ∈ newMarkers n ps, n ≤ l.uid ∧ l.uid < n + ps.length := by
  induction ps generalizing n with
  | nil => simp [newMarkers]
  | cons p ps ih =>
    intro l hl
    simp only [newMarkers, List.mem_cons] at hl
    rcases hl with rfl | hl
    · simp
    · have := ih (n + 1) l hl
      simp only [List.length_cons]
      omega

theorem newMarkers_property (n : Nat) (ps : List Property) :
    (newMarkers n ps).filterMap Layer.property? = ps := by
  induction ps generalizing n with
  | nil => rfl
  | cons p ps ih => simp [newMarkers, Layer.property?, ih]

theorem newMarkers_kind (n : Nat) (ps : List Property) :
    (newMarkers n ps).map Layer.kind = ps.map LayerKind.propertyMarker := by
  induction ps generalizing n with
  | nil => rfl
  | cons p ps ih => simp [newMarkers, ih]

/-! ## Marker loops: lemmas -/

theorem foldl_addMarker (ps : List Property) (s : AppState) :
    ps.foldl addMarker s
      = { s with
          nextUid := s.nextUid + ps.length
          mapLayers := (newMarkers s.nextUid ps).foldl addLayer s.mapLayers
          markers := s.markers ++ newMarkers s.nextUid ps } := by
  induction ps generalizing s with
  | nil => simp [newMarkers]
  | cons p ps ih =>
    have harith : s.nextUid + 1 + ps.length = s.nextUid + (ps.length + 1) := by omega
    rw [List.foldl_cons, ih]
    simp [addMarker, newMarkers, harith]

theorem foldl_addLayer_fresh (ps : List Property) (n : Nat) (layers : List Layer)
    (h : ∀ x ∈ layers, x.uid < n) :
    (newMarkers n ps).foldl addLayer layers = layers ++ newMarkers n ps := by
  induction ps generalizing n layers with
  | nil => simp [newMarkers]
  | cons p ps ih =>
    simp only [newMarkers, List.foldl_cons]
    rw [addLayer_fresh layers _ (fun x hx => by have := h x hx; simp; omega)]
    rw [ih (n + 1)]
    · simp
    · intro x hx
      simp only [List.mem_append, List.mem_singleton] at hx
      rcases hx with hx | rfl
      · have := h x hx
        omega
      · simp

theorem foldl_filter_addMarker (f : Property → Bool) (ps : List Property) (s : AppState) :
    ps.foldl (fun st property => if f property = true then addMarker st property else st) s
      = (ps.filter f).foldl addMarker s := by
  induction ps generalizing s with
  | nil => rfl
  | cons p ps ih =>
    by_cases h : f p = true
    · simp [List.filter_cons, h, ih]
    · simp [List.filter_cons, h, ih]

theorem matchesFilter_iff (ty ct : String) (p : Property) :
    matchesFilter ty ct p = decide ((ty = "" ∨ p.tipo = ty) ∧ (ct = "" ∨ p.contrato = ct)) := by
  by_cases h1 : ty = "" <;> by_cases h2 : p.tipo = ty <;> by_cases h3 : ct = "" <;>
    by_cases h4 : p.contrato = ct <;> simp [matchesFilter, h1, h2, h3, h4]

theorem filterProperties_eq (s : AppState) (catalog : List Property)
    (h : s.properties = some catalog) :
    filterProperties s = .normal
      ((catalog.filter (matchesFilter s.typeFilter s.contractFilter)).foldl addMarker
        (clearMarkers s)) := by
  unfold filterProperties
  have h1 : (clearMarkers s).properties = some catalog := by simp [clearMarkers, h]
  simp only [h1]
  rw [foldl_filter_addMarker]

/-! ## The invariant is kept by every handler -/

theorem removeLayer_sublist (layers : List Layer) (l : Layer) :
    (removeLayer layers l).Sublist layers :=
  List.filter_sublist _

theorem removeIfSet_sublist (layers : List Layer) (o : Option Layer) :
    (removeIfSet layers o).Sublist layers := by
  cases o with
  | none => exact List.Sublist.refl _
  | some l => exact removeLayer_sublist layers l

theorem wellFormed_of_sublist (s : AppState) (layers : List Layer) (h : WellFormed s)
    (hsub : layers.Sublist s.mapLayers) : WellFormed { s with mapLayers := layers } where
  map_lt := fun l hl => h.map_lt l (hsub.subset hl)
  map_nodup := h.map_nodup.sublist (hsub.map _)
  tracked := fun l hl hpm => h.tracked l (hsub.subset hl) hpm
  overlay_lt := h.overlay_lt
  overlay_kind := h.overlay_kind

theorem wellFormed_initializeMap : WellFormed initializeMap where
  map_lt := by simp [initializeMap]
  map_nodup := by simp [initializeMap]
  tracked := by simp [initializeMap, Layer.isPropertyMarker, Layer.property?]
  overlay_lt := by simp [initializeMap, overlayLayers]
  overlay_kind := by simp [initializeMap, overlayLayers]

theorem wellFormed_clearMarkers (s : AppState) (h : WellFormed s) :
    WellFormed (clearMarkers s) := by
  apply wellFormed_of_sublist s _ h
  rw [foldl_removeLayer]
  exact List.filter_sublist _

theorem clearMarkers_no_marker (s : AppState) (h : WellFormed s) :
    ∀ l ∈ (clearMarkers s).mapLayers, l.isPropertyMarker = false := by
  intro l hl
  simp only [clearMarkers, foldl_removeLayer, List.mem_filter, Bool.not_eq_true'] at hl
  cases hpm : l.isPropertyMarker with
  | false => rfl
  | true =>
    have := h.tracked l hl.1 hpm
    rw [hl.2] at this
    cases this

theorem wellFormed_clearMarkers_reset (s : AppState) (h : WellFormed s) :
    WellFormed { clearMarkers s with markers := [] } where
  map_lt := (wellFormed_clearMarkers s h).map_lt
  map_nodup := (wellFormed_clearMarkers s h).map_nodup
  tracked := fun l hl hpm => by
    have := clearMarkers_no_marker s h l hl
    rw [hpm] at this
    cases this
  overlay_lt := h.overlay_lt
  overlay_kind := h.overlay_kind

theorem wellFormed_addMarker (s : AppState) (p : Property) (h : WellFormed s) :
    WellFormed (addMarker s p) := by
  have hfresh : ∀ x ∈ s.mapLayers, x.uid ≠ s.nextUid := fun x hx => by
    have := h.map_lt x hx
    omega
  have hmap : (addMarker s p).mapLayers = s.mapLayers ++ [⟨s.nextUid, .propertyMarker p⟩] := by
    simp only [addMarker]
    exact addLayer_fresh _ _ hfresh
  refine ⟨?_, ?_, ?_, ?_, h.overlay_kind⟩
  · intro l hl
    rw [hmap, List.mem_append, List.mem_singleton] at hl
    rcases hl with hl | rfl
    · have := h.map_lt l hl
      simp only [addMarker]
      omega
    · simp [addMarker]
  · rw [hmap, List.map_append, List.nodup_append]
    refine ⟨h.map_nodup, by simp, ?_⟩
    intro a ha hb
    simp only [List.map_cons, List.map_nil, List.mem_singleton] at hb
    simp only [List.mem_map] at ha
    obtain ⟨x, hx, rfl⟩ := ha
    exact hfresh x hx hb
  · intro l hl hpm
    rw [hmap, List.mem_append, List.mem_singleton] at hl
    rw [hasLayer_iff]
    simp only [addMarker, List.map_append, List.mem_append]
    rcases hl with hl | rfl
    · exact Or.inl ((hasLayer_iff _ _).mp (h.tracked l hl hpm))
    · right
      simp
  · intro l hl
    have := h.overlay_lt l hl
    simp only [addMarker]
    omega

theorem wellFormed_foldl_addMarker (ps : List Property) (s : AppState) (h : WellFormed s) :
    WellFormed (ps.foldl addMarker s) := by
  induction ps generalizing s with
  | nil => exact h
  | cons p ps ih => exact ih _ (wellFormed_addMarker s p h)

theorem addMockOverlays_sublist (s : AppState) :
    (addMockOverlays s).mapLayers.Sublist s.mapLayers := by
  simp only [addMockOverlays]
  exact ((removeIfSet_sublist _ _).trans (removeIfSet_sublist _ _)).trans
    (removeIfSet_sublist _ _)

theorem mem_overlayLayers_addMockOverlays (s : AppState) (l : Layer)
    (hl : l ∈ overlayLayers (addMockOverlays s)) :
    l ∈ overlayLayers s ∨
      (s.nextUid ≤ l.uid ∧ l.uid < s.nextUid + 3 ∧ l.isPropertyMarker = false) := by
  simp only [overlayLayers, addMockOverlays, Option.toList_some, List.mem_append,
    List.mem_singleton] at hl
  simp only [overlayLayers, List.mem_append]
  rcases hl with ((((hl | hl) | hl) | hl | hl) | hl | hl) | hl | hl
  all_goals first
    | (subst hl; right; simp [Layer.isPropertyMarker, Layer.property?])
    | (left; tauto)

theorem wellFormed_addMockOverlays (s : AppState) (h : WellFormed s) :
    WellFormed (addMockOverlays s) := by
  refine ⟨?_, ?_, ?_, ?_, ?_⟩
  · intro l hl
    have := h.map_lt l ((addMockOverlays_sublist s).subset hl)
    simp only [addMockOverlays]
    omega
  · exact h.map_nodup.sublist ((addMockOverlays_sublist s).map _)
  · intro l hl hpm
    exact h.tracked l ((addMockOverlays_sublist s).subset hl) hpm
  · intro l hl
    rcases mem_overlayLayers_addMockOverlays s l hl with h1 | h1
    · have := h.overlay_lt l h1
      simp only [addMockOverlays]
      omega
    · simp only [addMockOverlays]
      omega
  · intro l hl
    rcases mem_overlayLayers_addMockOverlays s l hl with h1 | h1
    · exact h.overlay_kind l h1
    · exact h1.2.2

theorem wellFormed_toggleLayer (s : AppState) (l : Layer) (h : WellFormed s)
    (hlt : l.uid < s.nextUid) (hk : l.isPropertyMarker = false) :
    WellFormed { s with mapLayers := toggleLayer s.mapLayers l } := by
  unfold toggleLayer
  by_cases hon : hasLayer s.mapLayers l = true
  · rw [if_pos hon]
    exact wellFormed_of_sublist s _ h (removeLayer_sublist _ _)
  · rw [if_neg hon]
    have hfresh : ∀ x ∈ s.mapLayers, x.uid ≠ l.uid := by
      intro x hx hxl
      apply hon
      rw [hasLayer_iff]
      exact List.mem_map.mpr ⟨x, hx, hxl⟩
    rw [addLayer_fresh _ _ hfresh]
    refine ⟨?_, ?_, ?_, h.overlay_lt, h.overlay_kind⟩
    · intro x hx
      simp only [List.mem_append, List.mem_singleton] at hx
      rcases hx with hx | rfl
      · exact h.map_lt x hx
      · exact hlt
    · simp only [List.map_append, List.nodup_append]
      refine ⟨h.map_nodup, by simp, ?_⟩
      intro a ha hb
      simp only [List.map_cons, List.map_nil, List.mem_singleton] at hb
      simp only [List.mem_map] at ha
      obtain ⟨x, hx, rfl⟩ := ha
      exact hfresh x hx hb
    · intro x hx hpm
      simp only [List.mem_append, List.mem_singleton] at hx
      rcases hx with hx | rfl
      · exact h.tracked x hx hpm
      · rw [hk] at hpm
        cases hpm

theorem wellFormed_clickToggle (ls : List Layer) (s : AppState) (h : WellFormed s)
    (hlt : ∀ l ∈ ls, l.uid < s.nextUid) (hk : ∀ l ∈ ls, l.isPropertyMarker = false) :
    WellFormed { s with mapLayers := clickToggle s.mapLayers ls } := by
  induction ls generalizing s with
  | nil => exact h
  | cons l ls ih =>
    have h1 := wellFormed_toggleLayer s l h (hlt l (List.mem_cons_self _ _))
      (hk l (List.mem_cons_self _ _))
    have h2 := ih _ h1 (fun x hx => hlt x (List.mem_cons_of_mem _ hx))
      (fun x hx => hk x (List.mem_cons_of_mem _ hx))
    exact h2

theorem wellFormed_of_same_map (s t : AppState) (h : WellFormed s)
    (h1 : t.nextUid = s.nextUid) (h2 : t.mapLayers = s.mapLayers) (h3 : t.markers = s.markers)
    (h4 : overlayLayers t = overlayLayers s) : WellFormed t where
  map_lt := by rw [h1, h2]; exact h.map_lt
  map_nodup := by rw [h2]; exact h.map_nodup
  tracked := by rw [h2, h3]; exact h.tracked
  overlay_lt := by rw [h1, h4]; exact h.overlay_lt
  overlay_kind := by rw [h4]; exact h.overlay_kind

theorem reinitializeMap_none (s : AppState) (h : s.properties = none) :
    reinitializeMap s = { clearMarkers s with markers := [] } := by
  simp [reinitializeMap, clearMarkers, h]

theorem reinitializeMap_some (s : AppState) (ps : List Property) (h : s.properties = some ps) :
    reinitializeMap s
      = addMockOverlays (ps.foldl addMarker { clearMarkers s with markers := [] }) := by
  simp [reinitializeMap, clearMarkers, h]

theorem filterProperties_none (s : AppState) (h : s.properties = none) :
    filterProperties s = .typeError (clearMarkers s) := by
  simp [filterProperties, clearMarkers, h]

theorem wellFormed_reinitializeMap (s : AppState) (h : WellFormed s) :
    WellFormed (reinitializeMap s) := by
  have h1 := wellFormed_clearMarkers_reset s h
  cases hp : s.properties with
  | none =>
    rw [reinitializeMap_none s hp]
    exact h1
  | some ps =>
    rw [reinitializeMap_some s ps hp]
    exact wellFormed_addMockOverlays _ (wellFormed_foldl_addMarker ps _ h1)

theorem wellFormed_loadProperties (s : AppState) (fetched : Option (List Property))
    (h : WellFormed s) : WellFormed (loadProperties s fetched) := by
  cases fetched with
  | none => exact h
  | some ps =>
    have h0 : WellFormed { s with properties := some ps } :=
      wellFormed_of_same_map s _ h rfl rfl rfl rfl
    have h1 := wellFormed_clearMarkers_reset _ h0
    exact wellFormed_addMockOverlays _ (wellFormed_foldl_addMarker ps _ h1)

theorem wellFormed_filterProperties (s : AppState) (h : WellFormed s) :
    WellFormed (filterProperties s).state := by
  cases hp : s.properties with
  | none =>
    rw [filterProperties_none s hp]
    exact wellFormed_clearMarkers s h
  | some ps =>
    rw [filterProperties_eq s ps hp]
    exact wellFormed_foldl_addMarker _ _ (wellFormed_clearMarkers s h)

theorem wellFormed_showPropertyDetails (s : AppState) (i : String) (h : WellFormed s) :
    WellFormed (showPropertyDetails s i).state := by
  unfold showPropertyDetails
  cases s.properties with
  | none => exact h
  | some ps =>
    simp only
    cases ps.find? (fun p => p.id == i) with
    | none => exact h
    | some p => exact wellFormed_of_same_map s _ h rfl rfl rfl rfl

theorem wellFormed_step (s : AppState) (e : Event) (h : WellFormed s) :
    WellFormed (step s e) := by
  cases e with
  | propertiesFetched fetched => exact wellFormed_loadProperties s fetched h
  | typeFilterChanged value =>
    exact wellFormed_filterProperties _ (wellFormed_of_same_map s _ h rfl rfl rfl rfl)
  | contractFilterChanged value =>
    exact wellFormed_filterProperties _ (wellFormed_of_same_map s _ h rfl rfl rfl rfl)
  | markerClicked marker =>
    simp only [step]
    split
    · split
      · rw [addToHistory_eq]
        exact wellFormed_of_same_map s _ h rfl rfl rfl rfl
      · exact h
    · exact h
  | viewDetailsClicked propertyId => exact wellFormed_showPropertyDetails s propertyId h
  | backToHistoryClicked => exact wellFormed_reinitializeMap s h
  | deleteHistoryClicked propertyId => exact wellFormed_of_same_map s _ h rfl rfl rfl rfl
  | trafficToggleClicked =>
    refine wellFormed_clickToggle _ s h (fun l hl => h.overlay_lt l ?_)
      (fun l hl => h.overlay_kind l ?_) <;> simp [overlayLayers, hl]
  | shoppingToggleClicked =>
    refine wellFormed_clickToggle _ s h (fun l hl => h.overlay_lt l ?_)
      (fun l hl => h.overlay_kind l ?_) <;> simp [overlayLayers, hl]
  | securityToggleClicked =>
    refine wellFormed_clickToggle _ s h (fun l hl => h.overlay_lt l ?_)
      (fun l hl => h.overlay_kind l ?_) <;> simp [overlayLayers, hl]

theorem wellFormed_foldl_step (events : List Event) (s : AppState) (h : WellFormed s) :
    WellFormed (events.foldl step s) := by
  induction events generalizing s with
  | nil => exact h
  | cons e es ih => exact ih _ (wellFormed_step s e h)

theorem wellFormed_run (events : List Event) : WellFormed (run events) :=
  wellFormed_foldl_step events _ wellFormed_initializeMap

/-! ## What a render leaves on the map -/

theorem foldl_addMarker_mapLayers (ps : List Property) (s : AppState)
    (h : ∀ l ∈ s.mapLayers, l.uid < s.nextUid) :
    (ps.foldl addMarker s).mapLayers = s.mapLayers ++ newMarkers s.nextUid ps := by
  rw [foldl_addMarker]
  exact foldl_addLayer_fresh ps _ _ h

theorem removeIfSet_append_new (A : List Layer) (n : Nat) (ps : List Property)
    (o : Option Layer) (ho : ∀ l, o = some l → l.uid < n) :
    removeIfSet (A ++ newMarkers n ps) o = removeIfSet A o ++ newMarkers n ps := by
  cases o with
  | none => rfl
  | some l =>
    have hl := ho l rfl
    simp only [removeIfSet, removeLayer_eq_filter, List.filter_append]
    congr 1
    rw [List.filter_eq_self]
    intro x hx
    have := (newMarkers_uid n ps x hx).1
    simp only [decide_eq_true_eq]
    omega

theorem addMockOverlays_mapLayers (t : AppState) (A : List Layer) (n : Nat)
    (ps : List Property) (ht : t.mapLayers = A ++ newMarkers n ps)
    (hlt : ∀ l ∈ overlayLayers t, l.uid < n) :
    ∃ B, B.Sublist A ∧ (addMockOverlays t).mapLayers = B ++ newMarkers n ps := by
  refine ⟨removeIfSet (removeIfSet (removeIfSet A t.trafficLayer) t.shoppingLayer)
    t.securityLayer, ?_, ?_⟩
  · exact ((removeIfSet_sublist _ _).trans (removeIfSet_sublist _ _)).trans
      (removeIfSet_sublist _ _)
  · have h1 : ∀ l, t.trafficLayer = some l → l.uid < n := fun l hl =>
      hlt l (by simp [overlayLayers, hl])
    have h2 : ∀ l, t.shoppingLayer = some l → l.uid < n := fun l hl =>
      hlt l (by simp [overlayLayers, hl])
    have h3 : ∀ l, t.securityLayer = some l → l.uid < n := fun l hl =>
      hlt l (by simp [overlayLayers, hl])
    simp only [addMockOverlays, ht]
    rw [removeIfSet_append_new A n ps _ h1, removeIfSet_append_new _ n ps _ h2,
      removeIfSet_append_new _ n ps _ h3]

theorem hasLayer_congr (ms : List Layer) (x m : Layer) (h : x.uid = m.uid) :
    hasLayer ms x = hasLayer ms m := by
  simp [hasLayer, h]

/-- After a render from a well-formed state `s`, the map holds layers that survived the
clearing, none of them a property marker, followed by the new markers. -/
theorem render_exact (s : AppState) (h : WellFormed s) (B : List Layer)
    (hB : B.Sublist (clearMarkers s).mapLayers) (ps : List Property) :
    (B ++ newMarkers s.nextUid ps).filterMap Layer.property? = ps ∧
    (∀ m ∈ s.mapLayers, m.isPropertyMarker = true →
      hasLayer (B ++ newMarkers s.nextUid ps) m = false) := by
  constructor
  · rw [List.filterMap_append, newMarkers_property]
    have : B.filterMap Layer.property? = [] := by
      rw [List.filterMap_eq_nil_iff]
      intro l hl
      have := clearMarkers_no_marker s h l (hB.subset hl)
      simpa [Layer.isPropertyMarker] using this
    rw [this, List.nil_append]
  · intro m hm hpm
    rw [← Bool.not_eq_true, hasLayer_iff]
    simp only [List.map_append, List.mem_append, List.mem_map, not_or, not_exists, not_and]
    constructor
    · intro x hx hxm
      have hx2 := hB.subset hx
      simp only [clearMarkers, foldl_removeLayer, List.mem_filter, Bool.not_eq_true'] at hx2
      have := h.tracked m hm hpm
      rw [← hasLayer_congr s.markers x m hxm, hx2.2] at this
      cases this
    · intro x hx hxm
      have h1 := (newMarkers_uid _ _ x hx).1
      have h2 := h.map_lt m hm
      omega

theorem loadProperties_exact (s : AppState) (ps : List Property) (h : WellFormed s) :
    RenderedExactly s (loadProperties s (some ps)) ps := by
  have h0 : WellFormed { s with properties := some ps } :=
    wellFormed_of_same_map s _ h rfl rfl rfl rfl
  have h1 := wellFormed_clearMarkers_reset _ h0
  have hmap := foldl_addMarker_mapLayers ps _ h1.map_lt
  have hov : ∀ l ∈ overlayLayers (ps.foldl addMarker
      { clearMarkers { s with properties := some ps } with markers := [] }),
      l.uid < s.nextUid := by
    intro l hl
    rw [foldl_addMarker] at hl
    exact h.overlay_lt l hl
  obtain ⟨B, hB, hres⟩ := addMockOverlays_mapLayers _ _ _ ps hmap hov
  have hex := render_exact s h B hB ps
  refine ⟨?_, (wellFormed_loadProperties s (some ps) h).map_nodup, ?_⟩
  · show (addMockOverlays _).mapLayers.filterMap Layer.property? = ps
    rw [hres]
    exact hex.1
  · show ∀ m ∈ s.mapLayers, m.isPropertyMarker = true →
      hasLayer (addMockOverlays _).mapLayers m = false
    rw [hres]
    exact hex.2

theorem reinitializeMap_exact (s : AppState) (h : WellFormed s) :
    RenderedExactly s (reinitializeMap s) (catalog s) := by
  refine ⟨?_, (wellFormed_reinitializeMap s h).map_nodup, ?_⟩
  all_goals
    cases hp : s.properties with
    | none =>
      rw [reinitializeMap_none s hp]
      have hex := render_exact s h _ (List.Sublist.refl _) []
      simp only [newMarkers, List.append_nil] at hex
      first
        | (simp only [markedProperties, catalog, hp]; exact hex.1)
        | exact hex.2
    | some ps =>
      rw [reinitializeMap_some s ps hp]
      have h1 := wellFormed_clearMarkers_reset s h
      have hmap := foldl_addMarker_mapLayers ps _ h1.map_lt
      have hov : ∀ l ∈ overlayLayers (ps.foldl addMarker { clearMarkers s with markers := [] }),
          l.uid < s.nextUid := by
        intro l hl
        rw [foldl_addMarker] at hl
        exact h.overlay_lt l hl
      obtain ⟨B, hB, hres⟩ := addMockOverlays_mapLayers _ _ _ ps hmap hov
      have hex := render_exact s h B hB ps
      first
        | (simp only [markedProperties, catalog, hp]; rw [hres]; exact hex.1)
        | (rw [hres]; exact hex.2)

theorem filterProperties_exact (s : AppState) (h : WellFormed s) :
    RenderedExactly s (filterProperties s).state
      ((catalog s).filter (matchesFilter s.typeFilter s.contractFilter)) := by
  refine ⟨?_, (wellFormed_filterProperties s h).map_nodup, ?_⟩
  all_goals
    cases hp : s.properties with
    | none =>
      rw [filterProperties_none s hp]
      have hex := render_exact s h _ (List.Sublist.refl _) []
      simp only [newMarkers, List.append_nil] at hex
      first
        | (simp only [markedProperties, catalog, hp, Completion.state, List.filter_nil]
           exact hex.1)
        | exact hex.2
    | some ps =>
      rw [filterProperties_eq s ps hp]
      have hmap := foldl_addMarker_mapLayers
        (ps.filter (matchesFilter s.typeFilter s.contractFilter)) _
        (wellFormed_clearMarkers s h).map_lt
      have hex := render_exact s h _ (List.Sublist.refl _)
        (ps.filter (matchesFilter s.typeFilter s.contractFilter))
      first
        | (simp only [markedProperties, catalog, hp, Completion.state]; rw [hmap]; exact hex.1)
        | (simp only [Completion.state]; rw [hmap]; exact hex.2)

/-! ## Filtering and rendering: the claims -/

/-- C5: for every catalog and every pair of filter values `ty`, `ct`, `filterProperties`
completes normally and the markers it creates (those it appends to `markers`, with fresh
consecutive stamps) are property markers for, in catalog order, exactly the properties with
(`ty` empty or `tipo = ty`) and (`ct` empty or `contrato = ct`); with both values empty it
creates one marker for every property of the catalog. -/
theorem filterProperties_creates_matching (s : AppState) (catalog : List Property)
    (ty ct : String) :
    ∃ s', filterProperties
        { s with properties := some catalog, typeFilter := ty, contractFilter := ct }
          = .normal s' ∧
      s'.markers.take s.markers.length = s.markers ∧
      (s'.markers.drop s.markers.length).filterMap Layer.property?
        = catalog.filter
            (fun p => decide ((ty = "" ∨ p.tipo = ty) ∧ (ct = "" ∨ p.contrato = ct))) ∧
      (∀ m ∈ s'.markers.drop s.markers.length, m.isPropertyMarker = true ∧ s.nextUid ≤ m.uid) ∧
      (s'.markers.drop s.markers.length).length
        = (catalog.filter
            (fun p => decide ((ty = "" ∨ p.tipo = ty) ∧ (ct = "" ∨ p.contrato = ct)))).length ∧
      (ty = "" → ct = "" →
        (s'.markers.drop s.markers.length).filterMap Layer.property? = catalog) := by
  have hfun : matchesFilter ty ct
      = (fun p => decide ((ty = "" ∨ p.tipo = ty) ∧ (ct = "" ∨ p.contrato = ct))) := by
    funext p
    exact matchesFilter_iff ty ct p
  refine ⟨_, filterProperties_eq _ catalog rfl, ?_⟩
  rw [foldl_addMarker]
  simp only [clearMarkers, List.take_left, List.drop_left, newMarkers_property,
    newMarkers_length, hfun, true_and]
  refine ⟨?_, ?_⟩
  · intro m hm
    refine ⟨?_, (newMarkers_uid _ _ m hm).1⟩
    have hk : m.kind ∈ (newMarkers s.nextUid (catalog.filter
        (fun p => decide ((ty = "" ∨ p.tipo = ty) ∧ (ct = "" ∨ p.contrato = ct))))).map
        Layer.kind := List.mem_map_of_mem _ hm
    rw [newMarkers_kind, List.mem_map] at hk
    obtain ⟨p, _, hp⟩ := hk
    simp [Layer.isPropertyMarker, Layer.property?, ← hp]
  · intro h1 h2
    simp [h1, h2]

/-- C6: in every state the map page reaches, each render operation (the marker loop of
`loadProperties` for any fetched list, `reinitializeMap`, `filterProperties` for any filter
values) leaves on the map property markers in one-to-one correspondence with the list it
rendered, and no property marker of an earlier render; rendering `[A, B]` and then `[B]`
leaves exactly one marker, for `B`. -/
theorem render_is_exact (events : List Event) :
    (∀ ps : List Property,
      RenderedExactly (run events) (loadProperties (run events) (some ps)) ps) ∧
    RenderedExactly (run events) (reinitializeMap (run events)) (catalog (run events)) ∧
    (∀ ty ct : String,
      RenderedExactly (run events)
        (filterProperties { run events with typeFilter := ty, contractFilter := ct }).state
        ((catalog (run events)).filter (matchesFilter ty ct))) ∧
    (∀ A B : Property,
      markedProperties (loadProperties (loadProperties (run events) (some [A, B])) (some [B]))
        = [B]) := by
  have h := wellFormed_run events
  refine ⟨fun ps => loadProperties_exact _ ps h, reinitializeMap_exact _ h, ?_, ?_⟩
  · intro ty ct
    exact filterProperties_exact { run events with typeFilter := ty, contractFilter := ct }
      (wellFormed_of_same_map _ _ h rfl rfl rfl rfl)
  · intro A B
    exact (loadProperties_exact _ [B] (wellFormed_loadProperties _ (some [A, B]) h)).1

/-- C7: the session `filterThenDetailSession` ends with the type filter still at `casa`, the
house in the history, and property markers on the map for both the house and the flat, although
the flat fails the filter: before the detail view was opened the map showed the house alone, and
`hideDetailView`, through `reinitializeMap`, rendered the whole catalog. -/
theorem detail_close_ignores_filter :
    (run filterThenDetailSession).properties = some [sampleCasa, sampleDepa] ∧
    (run filterThenDetailSession).typeFilter = "casa" ∧
    (run filterThenDetailSession).contractFilter = "" ∧
    (run filterThenDetailSession).propertyHistory = [sampleCasa] ∧
    markedProperties (run (filterThenDetailSession.take 4)) = [sampleCasa] ∧
    markedProperties (run filterThenDetailSession) = [sampleCasa, sampleDepa] ∧
    matchesFilter (run filterThenDetailSession).typeFilter
      (run filterThenDetailSession).contractFilter sampleDepa = false ∧
    markedProperties (run filterThenDetailSession)
      ≠ (catalog (run filterThenDetailSession)).filter
          (matchesFilter (run filterThenDetailSession).typeFilter
            (run filterThenDetailSession).contractFilter) := by
  decide

/-! ## Notifications: lemmas -/

theorem find?_eq_none_of_unknown (ns : List Notification) (i : String)
    (h : ∀ n ∈ ns, n.id ≠ i) : ns.find? (fun n => n.id == i) = none := by
  rw [List.find?_eq_none]
  intro n hn
  simpa using h n hn

theorem find?_first (ns : List Notification) (i : String) (h : ∃ n ∈ ns, n.id = i) :
    ∃ pre n post, ns = pre ++ n :: post ∧ (∀ m ∈ pre, m.id ≠ i) ∧ n.id = i ∧
      ns.find? (fun n => n.id == i) = some n ∧
      ∀ f : Notification → Notification,
        mutateFirst (fun n => n.id == i) f ns = pre ++ f n :: post := by
  induction ns with
  | nil =>
    obtain ⟨n, hn, _⟩ := h
    cases hn
  | cons a as ih =>
    by_cases ha : a.id = i
    · exact ⟨[], a, as, rfl, by simp, ha, by simp [ha], by simp [mutateFirst, ha]⟩
    · have h2 : ∃ n ∈ as, n.id = i := by
        obtain ⟨n, hn, hni⟩ := h
        rcases List.mem_cons.mp hn with rfl | hn
        · exact absurd hni ha
        · exact ⟨n, hn, hni⟩
      obtain ⟨pre, n, post, h3, h4, h5, h6, h7⟩ := ih h2
      refine ⟨a :: pre, n, post, by simp [h3], ?_, h5, ?_, ?_⟩
      · intro m hm
        rcases List.mem_cons.mp hm with rfl | hm
        · exact ha
        · exact h4 m hm
      · simp [List.find?_cons, ha, h6]
      · intro f
        simp [mutateFirst, ha, h7 f]

/-! ## Notifications: the claims -/

/-- C8: for every state and every id that no notification of the list has,
`editNotification(id)` changes nothing, whatever the user would answer at the prompt: the
notifications list, and every other global, is as before. -/
theorem editNotification_unknown_id (s : AppState) (i : String)
    (prompt : String → Option String) (h : ∀ n ∈ s.notifications, n.id ≠ i) :
    (editNotification s i prompt).notifications = s.notifications ∧
    editNotification s i prompt = s := by
  have hs : editNotification s i prompt = s := by
    simp [editNotification, find?_eq_none_of_unknown s.notifications i h]
  rw [hs]
  exact ⟨rfl, rfl⟩

/-- C8 at a concrete input: the list holds the alert `alert_1` and `alert_2` is edited. -/
theorem editNotification_unknown_id_witness :
    (∀ n ∈ sampleAlertState.notifications, n.id ≠ "alert_2") ∧
    (editNotification sampleAlertState "alert_2" (fun _ => some "weekly")).notifications
      = sampleAlertState.notifications ∧
    editNotification sampleAlertState "alert_2" (fun _ => some "weekly") = sampleAlertState :=
  ⟨by decide,
    editNotification_unknown_id sampleAlertState "alert_2" (fun _ => some "weekly")
      (by decide)⟩

/-- C9 as stated fails: the list holds `alert_1` with frequency `daily`, and the user empties
the prompt and presses OK, which supplies the empty string; after `editNotification` the
notification with id `alert_1` does not have the supplied value as frequency. -/
theorem editNotification_empty_value_counterexample :
    (∃ n ∈ sampleAlertState.notifications, n.id = "alert_1") ∧
    ¬ (∀ n ∈ (editNotification sampleAlertState "alert_1" (fun _ => some "")).notifications,
        n.id = "alert_1" → n.frequency = "") := by
  decide

/-- C9, amended: when the list contains a notification with the given id, `editNotification`
reads the first such notification `n`; for every non-empty value the prompt returns, the list
afterwards is the old list with the frequency of `n` set to that value, all other fields of `n`
and all other notifications unchanged and in place, and no other global changes; when the
prompt is cancelled or returns the empty string nothing changes. -/
theorem editNotification_sets_frequency (s : AppState) (i : String)
    (h : ∃ n ∈ s.notifications, n.id = i) :
    ∃ pre n post, s.notifications = pre ++ n :: post ∧ (∀ m ∈ pre, m.id ≠ i) ∧ n.id = i ∧
      (∀ (prompt : String → Option String) (v : String),
        prompt n.frequency = some v → v ≠ "" →
        editNotification s i prompt
          = { s with notifications := pre ++ { n with frequency := v } :: post }) ∧
      (∀ prompt : String → Option String,
        prompt n.frequency = none ∨ prompt n.frequency = some "" →
        editNotification s i prompt = s) := by
  obtain ⟨pre, n, post, h1, h2, h3, h4, h5⟩ := find?_first s.notifications i h
  refine ⟨pre, n, post, h1, h2, h3, ?_, ?_⟩
  · intro prompt v hp hv
    simp [editNotification, h4, hp, hv, h5]
  · intro prompt hp
    rcases hp with hp | hp <;> simp [editNotification, h4, hp]

/-- C9, amended, at a concrete input: `alert_1` is in the list and is set to `weekly`. -/
theorem editNotification_sets_frequency_witness :
    (∃ n ∈ sampleAlertState.notifications, n.id = "alert_1") ∧
    ∃ pre n post, sampleAlertState.notifications = pre ++ n :: post ∧
      (∀ m ∈ pre, m.id ≠ "alert_1") ∧ n.id = "alert_1" ∧
      (∀ (prompt : String → Option String) (v : String),
        prompt n.frequency = some v → v ≠ "" →
        editNotification sampleAlertState "alert_1" prompt
          = { sampleAlertState with
              notifications := pre ++ { n with frequency := v } :: post }) ∧
      (∀ prompt : String → Option String,
        prompt n.frequency = none ∨ prompt n.frequency = some "" →
        editNotification sampleAlertState "alert_1" prompt = sampleAlertState) :=
  ⟨by decide, editNotification_sets_frequency sampleAlertState "alert_1" (by decide)⟩

/-- C10: for every state and id, a confirmed `deleteNotification(id)` leaves the list equal to
the old list without the notifications of that id, the others in their order, which is the old
list when no notification has the id; an unconfirmed call changes nothing. -/
theorem deleteNotification_spec (s : AppState) (i : String) :
    deleteNotification s i true
      = { s with notifications := s.notifications.filter (fun n => decide (n.id ≠ i)) } ∧
    (∀ n, n ∈ (deleteNotification s i true).notifications ↔ n ∈ s.notifications ∧ n.id ≠ i) ∧
    (deleteNotification s i true).notifications.Sublist s.notifications ∧
    ((∀ n ∈ s.notifications, n.id ≠ i) → deleteNotification s i true = s) ∧
    deleteNotification s i false = s := by
  have hfun : (fun n : Notification => n.id != i) = (fun n => decide (n.id ≠ i)) := by
    funext n
    by_cases h : n.id = i <;> simp [h]
  have heq : deleteNotification s i true
      = { s with notifications := s.notifications.filter (fun n => decide (n.id ≠ i)) } := by
    simp [deleteNotification, hfun]
  refine ⟨heq, ?_, ?_, ?_, by simp [deleteNotification]⟩
  · intro n
    rw [heq]
    simp
  · rw [heq]
    exact List.filter_sublist _
  · intro h
    rw [heq]
    have : s.notifications.filter (fun n => decide (n.id ≠ i)) = s.notifications := by
      rw [List.filter_eq_self]
      intro n hn
      simpa using h n hn
    rw [this]

/-! ## Alert identifiers: lemmas -/

theorem digitChar_inj (a b : Nat) (ha : a < 10) (hb : b < 10)
    (h : Nat.digitChar a = Nat.digitChar b) : a = b := by
  interval_cases a <;> interval_cases b <;> first | rfl | (exfalso; revert h; decide)

theorem decimal_ne_nil (n : Nat) : decimal n ≠ [] := by
  rw [decimal]
  split <;> simp

theorem decimal_injective : Function.Injective decimal := by
  intro n
  induction n using Nat.strong_induction_on with
  | _ n ih =>
    intro m h
    rw [decimal, decimal.eq_def m] at h
    by_cases hn : n < 10 <;> by_cases hm : m < 10
    · simp only [hn, hm, if_true, List.cons.injEq, and_true] at h
      exact digitChar_inj n m hn hm h
    · simp only [hn, hm, if_true, if_false] at h
      have hlen := congrArg List.length h
      have hpos := List.length_pos.mpr (decimal_ne_nil (m / 10))
      simp only [List.length_cons, List.length_nil, List.length_append] at hlen
      omega
    · simp only [hn, hm, if_true, if_false] at h
      have hlen := congrArg List.length h
      have hpos := List.length_pos.mpr (decimal_ne_nil (n / 10))
      simp only [List.length_cons, List.length_nil, List.length_append] at hlen
      omega
    · simp only [hn, hm, if_false] at h
      obtain ⟨h1, h2⟩ := List.append_inj' h rfl
      have hdiv : n / 10 = m / 10 := ih (n / 10) (by omega) h1
      have hmod : n % 10 = m % 10 :=
        digitChar_inj _ _ (Nat.mod_lt _ (by omega)) (Nat.mod_lt _ (by omega))
          (by simpa using h2)
      omega

theorem alertId_injective : Function.Injective alertId := by
  intro a b h
  have h1 := congrArg String.data h
  simp only [alertId, String.data_append, List.append_cancel_left_eq] at h1
  exact decimal_injective h1

theorem submitAlertForm_none (s : AppState) (now : Nat) (a f i : String)
    (h : s.properties = none) : (submitAlertForm s now a f i).state = s := by
  simp [submitAlertForm, h, Completion.state]

theorem submitAlertForm_some (s : AppState) (now : Nat) (a f i : String)
    (ps : List Property) (h : s.properties = some ps) :
    (submitAlertForm s now a f i).state.properties = some ps ∧
    ∃ n : Notification, n.id = alertId now ∧ n.name = a ∧ n.frequency = f ∧ n.propertyId = i ∧
      (submitAlertForm s now a f i).state.notifications = s.notifications ++ [n] := by
  refine ⟨by simp [submitAlertForm, h, Completion.state], ?_⟩
  refine ⟨{ id := alertId now, name := a, propertyId := i, frequency := f,
            propertyName := match ps.find? (fun p => p.id == i) with
              | some p => p.titulo
              | none => "Unknown Property" }, rfl, rfl, rfl, rfl, ?_⟩
  simp [submitAlertForm, h, Completion.state]

theorem submitAll_none (subs : List AlertSubmission) (s : AppState)
    (h : s.properties = none) : submitAll s subs = s := by
  induction subs with
  | nil => rfl
  | cons x xs ih =>
    simp only [submitAll, List.foldl_cons, submitAlertForm_none s _ _ _ _ h]
    exact ih

theorem submitAll_ids (subs : List AlertSubmission) (s : AppState) (ps : List Property)
    (h : s.properties = some ps) :
    (submitAll s subs).notifications.map (fun n => n.id)
      = s.notifications.map (fun n => n.id) ++ subs.map (fun x => alertId x.now) := by
  induction subs generalizing s with
  | nil => simp [submitAll]
  | cons x xs ih =>
    obtain ⟨hp, n, hn, _, _, _, hpush⟩ :=
      submitAlertForm_some s x.now x.alertName x.frequency x.propertyId ps h
    have := ih _ hp
    simp only [submitAll, List.foldl_cons] at this ⊢
    rw [this, hpush]
    simp [hn]

/-! ## Alert identifiers: the claim -/

/-- C11 as stated fails: with the catalog loaded and no notifications, two submissions of the
alert form whose clock readings are equal (a non-decreasing sequence) leave two notifications
with the same id. -/
theorem alert_ids_same_millisecond_counterexample :
    (sameInstantSubmissions.map (fun x => x.now)).Pairwise (fun a b => a ≤ b) ∧
    sampleLoaded.notifications = [] ∧
    (submitAll sampleLoaded sameInstantSubmissions).notifications.map (fun n => n.id)
      = [alertId 1700000000000, alertId 1700000000000] ∧
    ¬ ((submitAll sampleLoaded sameInstantSubmissions).notifications.map
        (fun n => n.id)).Nodup := by
  have hids := submitAll_ids sameInstantSubmissions sampleLoaded [sampleCasa, sampleDepa]
    (by decide)
  have hempty : sampleLoaded.notifications = [] := by decide
  rw [hempty] at hids
  refine ⟨by decide, hempty, ?_, ?_⟩
  · rw [hids]
    rfl
  · rw [hids]
    simp [sameInstantSubmissions]

/-- C11, amended: for every sequence of alert-form submissions with strictly increasing clock
readings, starting from an empty notifications list, the ids of the notifications in the list
are pairwise distinct; when the catalog is loaded every submission appends one notification and
the ids are `alert_` followed by the clock readings, in order of submission. -/
theorem alert_ids_distinct (s : AppState) (subs : List AlertSubmission)
    (h : (subs.map (fun x => x.now)).Pairwise (fun a b => a < b)) :
    ((submitAll { s with notifications := [] } subs).notifications.map
      (fun n => n.id)).Nodup ∧
    (∀ ps, s.properties = some ps →
      (submitAll { s with notifications := [] } subs).notifications.map (fun n => n.id)
        = subs.map (fun x => alertId x.now)) := by
  have hnows : (subs.map (fun x => x.now)).Nodup := h.imp (fun hab => Nat.ne_of_lt hab)
  have hmap : (subs.map (fun x => alertId x.now)).Nodup := by
    have := hnows.map alertId_injective
    simpa [List.map_map] using this
  by_cases hp : s.properties = none
  · rw [submitAll_none subs { s with notifications := [] } hp]
    simp [hp]
  · obtain ⟨ps, hps⟩ := Option.ne_none_iff_exists'.mp hp
    have hids := submitAll_ids subs { s with notifications := [] } ps hps
    simp only [List.map_nil, List.nil_append] at hids
    refine ⟨by rw [hids]; exact hmap, ?_⟩
    intro ps2 _
    exact hids

/-- C11, amended, at a concrete input: two submissions one millisecond apart. -/
theorem alert_ids_distinct_witness :
    (laterSubmissions.map (fun x => x.now)).Pairwise (fun a b => a < b) ∧
    ((submitAll { sampleLoaded with notifications := [] } laterSubmissions).notifications.map
      (fun n => n.id)).Nodup ∧
    (∀ ps, sampleLoaded.properties = some ps →
      (submitAll { sampleLoaded with notifications := [] } laterSubmissions).notifications.map
          (fun n => n.id)
        = laterSubmissions.map (fun x => alertId x.now)) :=
  ⟨by decide, alert_ids_distinct sampleLoaded laterSubmissions (by decide)⟩

/-! ## Location search: lemmas -/

theorem includes_iff (str sub : String) :
    includes str sub = true ↔ sub.data <:+: str.data := by
  simp only [includes, List.any_eq_true, List.isPrefixOf_iff_prefix, List.mem_tails]
  rw [List.infix_iff_prefix_suffix]
  constructor
  · rintro ⟨t, h1, h2⟩
    exact ⟨t, h2, h1⟩
  · rintro ⟨t, h1, h2⟩
    exact ⟨t, h2, h1⟩

theorem trim_eq_empty_iff (q : String) :
    (trim q == "") = true ↔ ∀ c ∈ q.data, isWhiteSpace c = true := by
  have hdata : (trim q == "") = true ↔
      ((q.data.dropWhile isWhiteSpace).reverse.dropWhile isWhiteSpace) = [] := by
    rw [beq_iff_eq, trim, String.ext_iff]
    simp
  rw [hdata, List.dropWhile_eq_nil_iff]
  constructor
  · intro h
    have hnil : q.data.dropWhile isWhiteSpace = [] := by
      by_contra hne
      have h1 := List.head_dropWhile_not isWhiteSpace q.data hne
      have h2 := h _ (List.mem_reverse.mpr (List.head_mem hne))
      rw [h2] at h1
      cases h1
    exact List.dropWhile_eq_nil_iff.mp hnil
  · intro h
    have hnil : q.data.dropWhile isWhiteSpace = [] := List.dropWhile_eq_nil_iff.mpr h
    rw [hnil]
    simp

theorem matchingProperty_pred (toLowerCase : String → String) (q : String) (p : Property) :
    (includes (toLowerCase p.ubicacion) (toLowerCase q) ||
      includes (toLowerCase p.titulo) (toLowerCase q)) = true ↔ MatchesQuery toLowerCase q p := by
  rw [Bool.or_eq_true, includes_iff, includes_iff]
  rfl

theorem matchingProperty_some_iff (toLowerCase : String → String) (s : AppState)
    (catalog : List Property) (q : String) (p : Property) (h : s.properties = some catalog) :
    matchingProperty toLowerCase s q = some p ↔
      ∃ pre post, catalog = pre ++ p :: post ∧ MatchesQuery toLowerCase q p ∧
        ∀ x ∈ pre, ¬ MatchesQuery toLowerCase q x := by
  simp only [matchingProperty, h, List.find?_eq_some, matchingProperty_pred]
  constructor
  · rintro ⟨h1, pre, post, h2, h3⟩
    refine ⟨pre, post, h2, h1, fun x hx hm => ?_⟩
    have := h3 x hx
    rw [(matchingProperty_pred toLowerCase q x).mpr hm] at this
    cases this
  · rintro ⟨pre, post, h2, h1, h3⟩
    refine ⟨h1, pre, post, h2, fun x hx => ?_⟩
    have := h3 x hx
    rw [← matchingProperty_pred] at this
    simpa using this

theorem matchingProperty_none_iff (toLowerCase : String → String) (s : AppState)
    (catalog : List Property) (q : String) (h : s.properties = some catalog) :
    matchingProperty toLowerCase s q = none ↔ ∀ x ∈ catalog, ¬ MatchesQuery toLowerCase q x := by
  simp only [matchingProperty, h, List.find?_eq_none, matchingProperty_pred]

theorem performLocationSearch_blank (toLowerCase : String → String) (s : AppState) (q : String)
    (h : ∀ c ∈ q.data, isWhiteSpace c = true) :
    performLocationSearch toLowerCase s q
      = { state := s, flights := [], lookups := [], timers := [], alerts := [] } := by
  simp [performLocationSearch, (trim_eq_empty_iff q).mpr h]

theorem performLocationSearch_nonblank (toLowerCase : String → String) (s : AppState)
    (q : String) (h : ∃ c ∈ q.data, isWhiteSpace c = false) :
    performLocationSearch toLowerCase s q
      = match matchingProperty toLowerCase s q with
        | some p => focusOn s p.coords p.ubicacion
        | none => { state := s, flights := [], lookups := [q], timers := [], alerts := [] } := by
  have hne : ¬ (trim q == "") = true := by
    rw [trim_eq_empty_iff]
    intro hall
    obtain ⟨c, hc, hws⟩ := h
    rw [hall c hc] at hws
    cases hws
  simp only [performLocationSearch, hne, if_false]
  rfl

/-! ## Location search: the claims -/

/-- C12: for every catalog and every query, the local text search of `performLocationSearch`
finds the first property in catalog order whose `ubicacion` or `titulo`, lower-cased, contains
the lower-cased query as a substring, and nothing when no property does; for a query that is
not blank the function focuses the map on that property, and issues the remote lookup when
there is none.  On the catalog holding only the property with title `Casa Linda` and location
`Miraflores`, the query `miraflores` finds that property and `xyz` finds nothing. -/
theorem local_search_first_match (toLowerCase : String → String) (s : AppState)
    (catalog : List Property) (q : String) :
    (∀ p, matchingProperty toLowerCase { s with properties := some catalog } q = some p ↔
      ∃ pre post, catalog = pre ++ p :: post ∧ MatchesQuery toLowerCase q p ∧
        ∀ x ∈ pre, ¬ MatchesQuery toLowerCase q x) ∧
    (matchingProperty toLowerCase { s with properties := some catalog } q = none ↔
      ∀ x ∈ catalog, ¬ MatchesQuery toLowerCase q x) ∧
    ((∃ c ∈ q.data, isWhiteSpace c = false) →
      performLocationSearch toLowerCase { s with properties := some catalog } q
        = match matchingProperty toLowerCase { s with properties := some catalog } q with
          | some p => focusOn { s with properties := some catalog } p.coords p.ubicacion
          | none =>
            { state := { s with properties := some catalog }, flights := [], lookups := [q],
              timers := [], alerts := [] }) ∧
    matchingProperty asciiLower { initializeMap with properties := some [sampleCasa] }
      "miraflores" = some sampleCasa ∧
    matchingProperty asciiLower { initializeMap with properties := some [sampleCasa] }
      "xyz" = none ∧
    (performLocationSearch asciiLower { initializeMap with properties := some [sampleCasa] }
      "miraflores").flights = [(sampleCasa.coords, 15)] ∧
    (performLocationSearch asciiLower { initializeMap with properties := some [sampleCasa] }
      "xyz").flights = [] := by
  refine ⟨fun p => matchingProperty_some_iff toLowerCase _ catalog q p rfl,
    matchingProperty_none_iff toLowerCase _ catalog q rfl,
    performLocationSearch_nonblank toLowerCase _ q, by decide, by decide, by decide, by decide⟩

/-- C13: for every state and query, `performLocationSearch` issues a remote geocoding lookup
exactly when the query is not blank and the local text search finds nothing, and then it issues
one, for that query; the code after the `await` issues none.  For a blank query, the empty
string included, it returns at once: no lookup, no `flyTo`, no marker, no timer, no message,
and the globals as before. -/
theorem lookup_iff_no_local_match (toLowerCase : String → String) (s : AppState)
    (q : String) :
    ((performLocationSearch toLowerCase s q).lookups = [q] ↔
      (∃ c ∈ q.data, isWhiteSpace c = false) ∧ matchingProperty toLowerCase s q = none) ∧
    ((performLocationSearch toLowerCase s q).lookups = [] ↔
      ¬ ((∃ c ∈ q.data, isWhiteSpace c = false) ∧ matchingProperty toLowerCase s q = none)) ∧
    (performLocationSearch toLowerCase s q).lookups.length ≤ 1 ∧
    (∀ response, (geocodeSettled (performLocationSearch toLowerCase s q).state
      response).lookups = []) ∧
    ((∀ c ∈ q.data, isWhiteSpace c = true) →
      performLocationSearch toLowerCase s q
        = { state := s, flights := [], lookups := [], timers := [], alerts := [] }) ∧
    performLocationSearch toLowerCase s ""
      = { state := s, flights := [], lookups := [], timers := [], alerts := [] } := by
  have hsettled : ∀ (t : AppState) response, (geocodeSettled t response).lookups = [] := by
    intro t response
    cases response with
    | failed => rfl
    | data results =>
      cases results with
      | nil => rfl
      | cons r rs => rfl
  have hempty : performLocationSearch toLowerCase s ""
      = { state := s, flights := [], lookups := [], timers := [], alerts := [] } :=
    performLocationSearch_blank toLowerCase s "" (by simp)
  by_cases hb : ∀ c ∈ q.data, isWhiteSpace c = true
  · have hnot : ¬ ∃ c ∈ q.data, isWhiteSpace c = false := by
      rintro ⟨c, hc, hws⟩
      rw [hb c hc] at hws
      cases hws
    rw [performLocationSearch_blank toLowerCase s q hb]
    refine ⟨?_, ?_, by simp, fun r => hsettled _ r, fun _ => rfl, hempty⟩
    · simp [hnot]
    · simp [hnot]
  · have hex : ∃ c ∈ q.data, isWhiteSpace c = false := by
      by_contra hcon
      apply hb
      intro c hc
      cases hws : isWhiteSpace c with
      | true => rfl
      | false => exact absurd ⟨c, hc, hws⟩ hcon
    refine ⟨?_, ?_, ?_, fun r => hsettled _ r, fun h => absurd h hb, hempty⟩
    all_goals
      rw [performLocationSearch_nonblank toLowerCase s q hex]
      cases hm : matchingProperty toLowerCase s q with
      | none => simp [hex]
      | some p => simp [focusOn]

/-! ## Overlay toggles and the markers array: the claims -/

/-- C14: after the catalog has loaded and one detail view has been opened and closed, no
overlay is on the map, and one click on the traffic toggle leaves two traffic groups on the
map, not one (the same for the shopping and the security toggle); a second click leaves none.
Each call of `addMockOverlays` registers one more click listener on every toggle button, and
each listener toggles the group of its own call.  Right after the load, with one listener per
button, a click leaves one group and a second click none. -/
theorem toggle_after_detail_cycle_adds_two :
    (run detailCycleSession).propertyHistory = [sampleCasa] ∧
    (run detailCycleSession).trafficListeners.length = 2 ∧
    (∀ name, overlaysOnMap (run detailCycleSession) name = 0) ∧
    (∀ name, overlaysOnMap (clickOverlayToggle (run detailCycleSession) name) name = 2) ∧
    (∀ name, overlaysOnMap
      (clickOverlayToggle (clickOverlayToggle (run detailCycleSession) name) name) name = 0) ∧
    (∀ name, overlaysOnMap (run (detailCycleSession.take 1)) name = 0) ∧
    (∀ name, overlaysOnMap
      (clickOverlayToggle (run (detailCycleSession.take 1)) name) name = 1) ∧
    (∀ name, overlaysOnMap
      (clickOverlayToggle (clickOverlayToggle (run (detailCycleSession.take 1)) name) name)
      name = 0) := by
  refine ⟨by decide, by decide, ?_, ?_, ?_, ?_, ?_, ?_⟩ <;> intro name <;> cases name <;> decide

/-- C15: after the catalog of two properties has loaded and the type filter has been set to
`casa`, one property has just been rendered and one property marker is on the map, but the
global `markers` holds three markers: the two of the load, which `filterProperties` took off
the map, and the new one.  `filterProperties` does not empty `markers` as `loadProperties` and
`reinitializeMap` do. -/
theorem filterProperties_keeps_removed_markers :
    markedProperties (run filterSession) = [sampleCasa] ∧
    (catalog (run filterSession)).filter
      (matchesFilter (run filterSession).typeFilter (run filterSession).contractFilter)
        = [sampleCasa] ∧
    (run filterSession).markers
      = [⟨1, .propertyMarker sampleCasa⟩, ⟨2, .propertyMarker sampleDepa⟩,
          ⟨6, .propertyMarker sampleCasa⟩] ∧
    (run filterSession).markers.length = 3 ∧
    hasLayer (run filterSession).mapLayers ⟨1, .propertyMarker sampleCasa⟩ = false ∧
    hasLayer (run filterSession).mapLayers ⟨2, .propertyMarker sampleDepa⟩ = false ∧
    (run (filterSession.take 1)).markers.length = 2 ∧
    (reinitializeMap (run filterSession)).markers.length = 2 := by
  decide

end HomeFinder
